import Mathlib

/-!
# Namespace launcher with identity-mapping synchronisation

A shallow embedding of `uid_mapping/src/main.cpp` (and of the option handling
of `unshare_demo/src/main.cpp`).  C strings are lists of characters, system
calls are events whose results are read from an explicit environment record,
and a process is the list of events it performs up to the point where it
exits or replaces its image.
-/

namespace UidMapping

/-- A C string (the terminating NUL is left implicit). -/
abbrev Str := List Char

/-! ## Constants of the C library and of Linux used by the sources -/

/-- Value of `EXIT_FAILURE` in `<stdlib.h>`. -/
def EXIT_FAILURE : Nat := 1
/-- Value of `EXIT_SUCCESS` in `<stdlib.h>`. -/
def EXIT_SUCCESS : Nat := 0
/-- Value of `ENOENT` in `<errno.h>`. -/
def ENOENT : Nat := 2
/-- Value of `PATH_MAX` in `<limits.h>`. -/
def PATH_MAX : Nat := 4096
/-- Value of `SIGCHLD` in `<signal.h>`. -/
def SIGCHLD : Nat := 17
/-- Value of `CLONE_NEWNS` in `<sched.h>`. -/
def CLONE_NEWNS : Nat := 0x00020000
/-- Value of `CLONE_NEWUTS` in `<sched.h>`. -/
def CLONE_NEWUTS : Nat := 0x04000000
/-- Value of `CLONE_NEWIPC` in `<sched.h>`. -/
def CLONE_NEWIPC : Nat := 0x08000000
/-- Value of `CLONE_NEWUSER` in `<sched.h>`. -/
def CLONE_NEWUSER : Nat := 0x10000000
/-- Value of `CLONE_NEWPID` in `<sched.h>`. -/
def CLONE_NEWPID : Nat := 0x20000000
/-- Value of `CLONE_NEWNET` in `<sched.h>`. -/
def CLONE_NEWNET : Nat := 0x40000000
/-- The local constant `MAP_BUF_SIZE` of `main`. -/
def MAP_BUF_SIZE : Nat := 100

/-- The conversion `%jd` (and `%ld`) applied to a non-negative value. -/
def fmtDec (n : Nat) : Str := Nat.toDigits 10 n

/-- The effect of `snprintf(buf, size, ...)` on `buf`, given the fully
formatted text: at most `size - 1` characters are stored. -/
def snprintf (size : Nat) (text : Str) : Str := text.take (size - 1)

/-! ## Events -/

/-- Result of `open(path, O_RDWR)`: a descriptor, or `-1` with `errno`. -/
inductive OpenRes
  | ok
  | fail (errno : Nat)
  deriving DecidableEq, Repr

/-- How a process ended, as `waitpid` would report it. -/
inductive WStatus
  | exited (code : Nat)
  | signaled (sig : Nat)
  deriving DecidableEq, Repr

/-- The observable actions of the programs.  Each system call carries the
result the kernel returned. -/
inductive Ev
  /-- Body of `usage(pname)`: the usage text on standard error. -/
  | usage
  /-- A `printf` on standard output. -/
  | printf (text : Str)
  /-- A `fprintf(stderr, ...)`; `errno` is the argument of `strerror`, if any. -/
  | eprintf (text : Str) (errno : Option Nat)
  /-- The call `err(EXIT_FAILURE, what)` up to its message. -/
  | err (what : Str)
  | pipe (ok : Bool)
  | clone (flags : Nat) (argv : List Str) (ret : Option Nat)
  | open (path : Str) (res : OpenRes)
  | write (path : Str) (buf : Str) (ret : Int)
  | close (path : Str)
  /-- The call `close(pipe_fd[1])`. -/
  | closePipeWrite
  /-- The call `close(pipe_fd[0])`. -/
  | closePipeRead
  /-- The call `read(pipe_fd[0], &ch, 1)`. -/
  | read (ret : Int)
  | waitpid (pid : Nat) (ok : Bool)
  | unshare (flags : Nat) (ok : Bool)
  /-- The call `execvp(file, argv)`; `file = none` is a NULL pointer. -/
  | execvp (file : Option Str) (argv : List Str) (ok : Bool)
  /-- The program started by a successful `execvp` has ended. -/
  | terminated (st : WStatus)
  | exit (status : Nat)
  deriving DecidableEq, Repr

/-! ## `update_map` -/

/-- The character that the loop of `update_map` leaves at a position that held `c`. -/
def commaToNewline (c : Char) : Char := if c = ',' then '\n' else c

/-- The loop `for (j = 0; j < map_len; j++) if (',' == mapping[j]) mapping[j] = '\n';`
started at index `j`, with `n` iterations left. -/
def replaceLoop : Nat → Nat → Str → Str
  | 0, _, mapping => mapping
  | n + 1, j, mapping =>
    replaceLoop n (j + 1)
      (if mapping.get? j = some ',' then mapping.set j '\n' else mapping)

/-- The buffer that `update_map` hands to `write`: `mapping` after the
comma-replacement loop over `strlen(mapping)` positions. -/
def payload (mapping : Str) : Str := replaceLoop mapping.length 0 mapping

/-- The function `update_map(mapping, map_file)`.  Returns the events performed and
whether the function returned (`false`: it called `exit(EXIT_FAILURE)`). -/
def update_map (mapping map_file : Str) (openRes : OpenRes) (writeRet : Int) :
    List Ev × Bool :=
  let buf := payload mapping
  match openRes with
  | .fail e =>
    ([.open map_file (.fail e),
      .eprintf ("ERROR: open ".toList ++ map_file ++ ": ".toList) (some e),
      .exit EXIT_FAILURE], false)
  | .ok =>
    if writeRet ≠ (buf.length : Int) then
      ([.open map_file .ok, .write map_file buf writeRet,
        .eprintf ("ERROR: write ".toList ++ map_file ++ ": ".toList) none,
        .exit EXIT_FAILURE], false)
    else
      ([.open map_file .ok, .write map_file buf writeRet, .close map_file], true)

/-! ## `proc_setgroups_write` -/

/-- The function `proc_setgroups_write(child_pid, str)`.  It has no `exit` on any
path: the result is only the list of events performed before it returns. -/
def proc_setgroups_write (child_pid : Nat) (str : Str) (openRes : OpenRes)
    (writeRet : Int) : List Ev :=
  let setgroups_path :=
    snprintf PATH_MAX ("/proc/".toList ++ fmtDec child_pid ++ "/setgroups".toList)
  match openRes with
  | .fail e =>
    if e ≠ ENOENT then
      [.open setgroups_path (.fail e),
       .eprintf ("ERROR: open ".toList ++ setgroups_path ++ ": ".toList) (some e)]
    else
      [.open setgroups_path (.fail e)]
  | .ok =>
    if writeRet = -1 then
      [.open setgroups_path .ok, .write setgroups_path str writeRet,
       .eprintf ("ERROR: write ".toList ++ setgroups_path ++ ": ".toList) none,
       .close setgroups_path]
    else
      [.open setgroups_path .ok, .write setgroups_path str writeRet,
       .close setgroups_path]

/-! ## `childFunc` -/

/-- What the kernel answers to the child: the return value of its `read` on the
pipe, and the fate of `execvp` (`none`: it returned, that is, it failed;
`some st`: the image was replaced and the new program ended with `st`). -/
structure ChildEnv where
  readRet : Int
  exec : Option WStatus
  deriving DecidableEq, Repr

/-- The function `childFunc(arg)` with `arg->argv = argv`. -/
def childFunc (argv : List Str) (cenv : ChildEnv) : List Ev :=
  [.closePipeWrite, .read cenv.readRet] ++
  (if cenv.readRet ≠ 0 then
    [.eprintf "Failure in child: read from pipe returned != 0\n".toList none,
     .exit EXIT_FAILURE]
  else
    [.closePipeRead,
     .printf ("About to exec ".toList ++ argv.headD "(null)".toList ++ "\n".toList),
     .execvp argv.head? argv cenv.exec.isSome] ++
    (match cenv.exec with
     | some st => [.terminated st]
     | none => [.err "execvp".toList, .exit EXIT_FAILURE]))

/-! ## `getopt` -/

/-- Lookup of an option character in the option string, as `getopt` does it:
`none` when the character is not an option, otherwise whether it takes an
argument (it is followed by a colon). -/
def optLookup : Str → Char → Option Bool
  | [], _ => none
  | x :: rest, c =>
    if x = c ∧ c ≠ ':' then
      (match rest with
       | ':' :: _ => some true
       | _ => some false)
    else optLookup rest c

/-- Scan of the characters of one option word after its dash.  `next` is the
following word of `argv`, if any.  Returns the successive return values of
`getopt` with `optarg`, and whether the following word was taken as an
argument.  An unknown character, or a missing argument, is reported as `?`. -/
def scanCluster (os : Str) : Str → Option Str → List (Char × Option Str) × Bool
  | [], _ => ([], false)
  | c :: cs, next =>
    match optLookup os c with
    | none =>
      let r := scanCluster os cs next
      (('?', none) :: r.1, r.2)
    | some false =>
      let r := scanCluster os cs next
      ((c, none) :: r.1, r.2)
    | some true =>
      match cs, next with
      | _ :: _, _ => ([(c, some cs)], false)
      | [], some a => ([(c, some a)], true)
      | [], none => ([('?', none)], false)

/-- Outcome of scanning the words after `argv[0]`. -/
structure Scan where
  /-- Return values of the successive calls (before the final `-1`). -/
  rets : List (Char × Option Str)
  /-- Words consumed as options, option arguments, or the `--` marker. -/
  optWords : List Str
  /-- Non-option words that were skipped over (permuting mode only). -/
  skipped : List Str
  /-- Words left unscanned. -/
  rest : List Str
  deriving DecidableEq, Repr

/-- Whether a word of `argv` is scanned as options: it starts with a dash and is
longer than the dash alone. -/
def isOptWord (w : Str) : Bool :=
  match w with
  | '-' :: _ :: _ => true
  | _ => false

/-- Scan of the words after `argv[0]`.  With `order = true` (option string
starting with `+`) scanning stops at the first non-option word; otherwise
non-option words are skipped and collected.  `taken = true` says that the
first word was already consumed as the argument of the preceding option. -/
def scanWords (os : Str) (order : Bool) : Bool → List Str → Scan
  | _, [] => ⟨[], [], [], []⟩
  | true, w :: ws =>
    let s := scanWords os order false ws
    ⟨s.rets, w :: s.optWords, s.skipped, s.rest⟩
  | false, w :: ws =>
    if w = ['-', '-'] then ⟨[], [w], [], ws⟩
    else if isOptWord w then
      let r := scanCluster os w.tail ws.head?
      let s := scanWords os order r.2 ws
      ⟨r.1 ++ s.rets, w :: s.optWords, s.skipped, s.rest⟩
    else if order then ⟨[], [], [], w :: ws⟩
    else
      let s := scanWords os order false ws
      ⟨s.rets, s.optWords, w :: s.skipped, s.rest⟩

/-- What the loop `while ((opt = getopt(argc, argv, optstring)) != -1)` sees. -/
structure GetoptRun where
  /-- Successive values of `opt` with `optarg`. -/
  rets : List (Char × Option Str)
  /-- The vector `argv` once `getopt` has returned `-1` (options first). -/
  argv : List Str
  /-- The value of `optind` once `getopt` has returned `-1`. -/
  optind : Nat
  deriving DecidableEq, Repr

/-- The library function `getopt` run to completion over `argv`. -/
def getopt (optstring : Str) (argv : List Str) : GetoptRun :=
  let order : Bool := optstring.head? = some '+'
  let os := if order then optstring.tail else optstring
  let s := scanWords os order false argv.tail
  { rets := s.rets
    argv := argv.take 1 ++ s.optWords ++ s.skipped ++ s.rest
    optind := 1 + s.optWords.length }

/-! ## `main` of `uid_mapping` -/

/-- The variables that the option loop of `main` sets. -/
structure Opts where
  flags : Nat
  verbose : Bool
  map_zero : Bool
  uid_map : Option Str
  gid_map : Option Str
  deriving DecidableEq, Repr

/-- The assignments before the option loop. -/
def Opts.init : Opts :=
  { flags := 0, verbose := false, map_zero := false, uid_map := none, gid_map := none }

/-- The `switch (opt)` of `main`; `none` is the `default:` branch, `usage(argv[0])`. -/
def optSwitch (st : Opts) (opt : Char) (optarg : Option Str) : Option Opts :=
  if opt = 'i' then some { st with flags := st.flags ||| CLONE_NEWIPC }
  else if opt = 'm' then some { st with flags := st.flags ||| CLONE_NEWNS }
  else if opt = 'n' then some { st with flags := st.flags ||| CLONE_NEWNET }
  else if opt = 'p' then some { st with flags := st.flags ||| CLONE_NEWPID }
  else if opt = 'u' then some { st with flags := st.flags ||| CLONE_NEWUTS }
  else if opt = 'v' then some { st with verbose := true }
  else if opt = 'z' then some { st with map_zero := true }
  else if opt = 'M' then some { st with uid_map := optarg }
  else if opt = 'G' then some { st with gid_map := optarg }
  else if opt = 'U' then some { st with flags := st.flags ||| CLONE_NEWUSER }
  else none

/-- The option loop of `main` over the values returned by `getopt`. -/
def parseLoop : List (Char × Option Str) → Opts → Option Opts
  | [], st => some st
  | (opt, optarg) :: rest, st =>
    match optSwitch st opt optarg with
    | none => none
    | some st' => parseLoop rest st'

/-- What the kernel answers to the parent. -/
structure Env where
  /-- Value of `getuid()`. -/
  uid : Nat
  /-- Value of `getgid()`. -/
  gid : Nat
  /-- Whether `pipe` succeeds. -/
  pipeOk : Bool
  /-- Value of `clone`: the child's PID, or `none` for `-1`. -/
  cloneRet : Option Nat
  uidOpen : OpenRes
  uidWrite : Int
  sgOpen : OpenRes
  sgWrite : Int
  gidOpen : OpenRes
  gidWrite : Int
  /-- Whether `waitpid` returns the child's PID (`false`: it returns `-1`). -/
  waitOk : Bool
  /-- How the child ended.  `main` passes `NULL` as the status argument of
  `waitpid`, so this value is never delivered to it. -/
  child : WStatus
  deriving DecidableEq, Repr

/-- The condition of the `if` that guards `usage(argv[0])` after the option loop. -/
def invalidOpts (st : Opts) : Bool :=
  ((st.uid_map.isSome || st.gid_map.isSome || st.map_zero)
      && (st.flags &&& CLONE_NEWUSER == 0))
    || (st.map_zero && (st.uid_map.isSome || st.gid_map.isSome))

/-- The path `/proc/<child_pid>/uid_map` as built in `map_path`. -/
def uidMapPath (child_pid : Nat) : Str :=
  snprintf PATH_MAX ("/proc/".toList ++ fmtDec child_pid ++ "/uid_map".toList)

/-- The path `/proc/<child_pid>/gid_map` as built in `map_path`. -/
def gidMapPath (child_pid : Nat) : Str :=
  snprintf PATH_MAX ("/proc/".toList ++ fmtDec child_pid ++ "/gid_map".toList)

/-- The text `0 <id> 1`, the format `"0 %jd 1"` applied to `id`. -/
def zeroMapText (id : Nat) : Str := "0 ".toList ++ fmtDec id ++ " 1".toList

/-- The value of `uid_map` that reaches `update_map`: with `-z` it points to
`map_buf`, freshly filled by `snprintf` from `getuid()`. -/
def uidMapArg (st : Opts) (env : Env) : Option Str :=
  if st.map_zero then some (snprintf MAP_BUF_SIZE (zeroMapText env.uid)) else st.uid_map

/-- The value of `gid_map` that reaches `update_map`: with `-z` it points to
`map_buf`, filled again by `snprintf` from `getgid()`. -/
def gidMapArg (st : Opts) (env : Env) : Option Str :=
  if st.map_zero then some (snprintf MAP_BUF_SIZE (zeroMapText env.gid)) else st.gid_map

/-- The block `if (uid_map != NULL || map_zero) { ... }` of `main`. -/
def uidStep (st : Opts) (child_pid : Nat) (env : Env) : List Ev × Bool :=
  if st.uid_map.isSome || st.map_zero then
    match uidMapArg st env with
    | some m => update_map m (uidMapPath child_pid) env.uidOpen env.uidWrite
    | none => ([], true)
  else ([], true)

/-- The block `if (gid_map != NULL || map_zero) { ... }` of `main`. -/
def gidStep (st : Opts) (child_pid : Nat) (env : Env) : List Ev × Bool :=
  if st.gid_map.isSome || st.map_zero then
    match gidMapArg st env with
    | some m =>
      ((proc_setgroups_write child_pid "deny".toList env.sgOpen env.sgWrite) ++
        (update_map m (gidMapPath child_pid) env.gidOpen env.gidWrite).1,
       (update_map m (gidMapPath child_pid) env.gidOpen env.gidWrite).2)
    | none => (proc_setgroups_write child_pid "deny".toList env.sgOpen env.sgWrite, true)
  else ([], true)

/-- Both mapping blocks in sequence: the events, and whether control reaches the
statement after them. -/
def mapSteps (st : Opts) (child_pid : Nat) (env : Env) : List Ev × Bool :=
  let u := uidStep st child_pid env
  if u.2 then
    let g := gidStep st child_pid env
    (u.1 ++ g.1, g.2)
  else u

/-- The end of `main`, from `waitpid` on. -/
def waitSteps (prog : Str) (st : Opts) (child_pid : Nat) (env : Env) : List Ev :=
  if env.waitOk then
    [.waitpid child_pid true] ++
    (if st.verbose then [.printf (prog ++ ": terminating\n".toList)] else []) ++
    [.exit EXIT_SUCCESS]
  else
    [.waitpid child_pid false, .err "waitpid".toList, .exit EXIT_FAILURE]

/-- The part of `main` that the parent runs once `clone` has returned the
child's PID. -/
def parentAfterClone (prog : Str) (st : Opts) (child_pid : Nat) (env : Env) : List Ev :=
  (if st.verbose then
    [.printf (prog ++ ": PID of child created by clone() is ".toList ++ fmtDec child_pid
      ++ "\n".toList)]
   else []) ++
  (let m := mapSteps st child_pid env
   if m.2 then m.1 ++ .closePipeWrite :: waitSteps prog st child_pid env
   else m.1)

/-- The part of `main` after the option loop: `cmd` is `&argv[optind]`. -/
def afterParse (prog : Str) (st : Opts) (cmd : List Str) (env : Env) : List Ev :=
  if invalidOpts st then [.usage, .exit EXIT_FAILURE]
  else if !env.pipeOk then [.pipe false, .err "pipe".toList, .exit EXIT_FAILURE]
  else
    match env.cloneRet with
    | none =>
      [.pipe true, .clone (st.flags ||| SIGCHLD) cmd none, .err "clone".toList,
       .exit EXIT_FAILURE]
    | some child_pid =>
      [.pipe true, .clone (st.flags ||| SIGCHLD) cmd (some child_pid)] ++
        parentAfterClone prog st child_pid env

/-- The function `main` of `uid_mapping`: the events of the parent process. -/
def main (argv : List Str) (env : Env) : List Ev :=
  let g := getopt "+imnpuUM:G:zv".toList argv
  match parseLoop g.rets Opts.init with
  | none => [.usage, .exit EXIT_FAILURE]
  | some st => afterParse (argv.headD []) st (g.argv.drop g.optind) env

/-- The path `/proc/<child_pid>/setgroups` as built in `setgroups_path`. -/
def setgroupsPath (child_pid : Nat) : Str :=
  snprintf PATH_MAX ("/proc/".toList ++ fmtDec child_pid ++ "/setgroups".toList)

/-- The events that the two mapping blocks of `main` can perform. -/
def isMapEv : Ev → Bool
  | .open _ _ => true
  | .write _ _ _ => true
  | .close _ => true
  | .eprintf _ _ => true
  | .exit _ => true
  | _ => false

/-- Whether an event is a call of `exit`. -/
def isExit : Ev → Bool
  | .exit _ => true
  | _ => false

/-- The status with which a process that performed `evs` ended, if it called `exit`. -/
def exitStatus (evs : List Ev) : Option Nat :=
  match evs.getLast? with
  | some (.exit n) => some n
  | _ => none

end UidMapping

/-! ## The two processes after `clone` -/

namespace UidMapping

/-- The two processes that exist once `clone` has returned in the parent. -/
inductive Proc
  | parent
  | child
  deriving DecidableEq, Repr

/-- State of the pair of processes.  Each process has its remaining actions;
`parentW` and `childW` say whether its descriptor for the write end of the pipe
is still open (`clone` is called without `CLONE_FILES`, so the child starts
with its own copy of both descriptors). -/
structure Sys where
  parent : List Ev
  child : List Ev
  parentW : Bool
  childW : Bool
  /-- The child has terminated (so that `waitpid` can return its PID). -/
  childDead : Bool
  /-- The actions performed so far, oldest first. -/
  trace : List (Proc × Ev)
  deriving DecidableEq, Repr

/-- Actions after which the process no longer holds its descriptor for the write
end of the pipe: the explicit `close(pipe_fd[1])`, and the end of the process,
at which the kernel closes every descriptor it holds. -/
def closesWriteEnd : Ev → Bool
  | .closePipeWrite => true
  | .exit _ => true
  | .terminated _ => true
  | _ => false

/-- Actions that end a process. -/
def endsProcess : Ev → Bool
  | .exit _ => true
  | .terminated _ => true
  | _ => false

/-- Whether the parent's next action can complete now: `waitpid` returns the
child's PID only once the child has terminated. -/
def parentEnabled (s : Sys) : Ev → Bool
  | .waitpid _ true => s.childDead
  | _ => true

/-- Whether the child's next action can complete now.  Neither program ever
writes to the pipe, so a `read` on it returns 0 (end of file) only once every
descriptor for the write end is closed, never returns a positive count, and
blocks otherwise; a negative return (an error) is possible at any time. -/
def childEnabled (s : Sys) : Ev → Bool
  | .read r => if r = 0 then !s.parentW && !s.childW else decide (r < 0)
  | _ => true

/-- One action of process `p`, if its next action is enabled. -/
def step (p : Proc) (s : Sys) : Option Sys :=
  match p with
  | .parent =>
    match s.parent with
    | [] => none
    | e :: rest =>
      if parentEnabled s e then
        some { s with
          parent := rest
          parentW := s.parentW && !closesWriteEnd e
          trace := s.trace ++ [(Proc.parent, e)] }
      else none
  | .child =>
    match s.child with
    | [] => none
    | e :: rest =>
      if childEnabled s e then
        some { s with
          child := rest
          childW := s.childW && !closesWriteEnd e
          childDead := s.childDead || endsProcess e
          trace := s.trace ++ [(Proc.child, e)] }
      else none

/-- The state reached by following a schedule, if every scheduled action was
enabled. -/
def run : List Proc → Sys → Option Sys
  | [], s => some s
  | p :: ps, s =>
    match step p s with
    | none => none
    | some s' => run ps s'

/-- The state right after `clone`, for a parent and a child that will perform
the given actions. -/
def initSys (P C : List Ev) : Sys :=
  { parent := P, child := C, parentW := true, childW := true, childDead := false,
    trace := [] }

/-- The two processes of `uid_mapping` right after `clone` returned `child_pid` in
the parent: the parent continues `main`, the child runs `childFunc` on
`&argv[optind]`. -/
def launch (prog : Str) (st : Opts) (child_pid : Nat) (env : Env) (cmd : List Str)
    (cenv : ChildEnv) : Sys :=
  initSys (parentAfterClone prog st child_pid env) (childFunc cmd cenv)

/-- The actions of process `p` in a trace, in order. -/
def proj (p : Proc) (t : List (Proc × Ev)) : List Ev :=
  (t.filter (fun x => x.1 = p)).map (fun x => x.2)

end UidMapping

/-! ## Ordering of events in a trace -/

namespace UidMapping

/-- Every event of the trace that satisfies `B` has an event that satisfies `A`
at an earlier position. -/
def Before {α : Type} (t : List α) (A B : α → Prop) : Prop :=
  ∀ (i : Nat) (b : α), t[i]? = some b → B b →
    ∃ (j : Nat) (a : α), j < i ∧ t[j]? = some a ∧ A a

/-- No event that satisfies `Y` comes at or after an event that satisfies `X`. -/
def NotAfter {α : Type} (t : List α) (X Y : α → Prop) : Prop :=
  ∀ (i j : Nat) (x y : α), t[i]? = some x → X x → t[j]? = some y → Y y → j < i

/-- The facts that hold in every state of a run of two processes whose complete
action lists are `P` (parent) and `C` (child).  `Rel` singles out the parent
actions that count as giving up the write end, `W` a parent action that must
precede the explicit release when `G` holds. -/
structure Inv (P C : List Ev) (Rel W : Ev → Prop) (G : Prop) (s : Sys) : Prop where
  projP : proj Proc.parent s.trace ++ s.parent = P
  projC : proj Proc.child s.trace ++ s.child = C
  stillOpen : s.parentW = true →
    ∀ e, (Proc.parent, e) ∈ s.trace → closesWriteEnd e = false
  closed : s.parentW = false → ∃ e, (Proc.parent, e) ∈ s.trace ∧ Rel e
  eof : (Proc.child, Ev.read 0) ∈ s.trace → ∃ e, (Proc.parent, e) ∈ s.trace ∧ Rel e
  execAfter : Before s.trace (fun x => ∃ e, x = (Proc.parent, e) ∧ Rel e)
    (fun x => ∃ f a ok, x = (Proc.child, Ev.execvp f a ok))
  noLateRelease : NotAfter s.trace (fun x => ∃ f a ok, x = (Proc.child, Ev.execvp f a ok))
    (fun y => y = (Proc.parent, Ev.closePipeWrite))
  writes : Before s.trace (fun x => ∃ e, x = (Proc.parent, e) ∧ W e)
    (fun x => G ∧ x = (Proc.parent, Ev.closePipeWrite))

end UidMapping

/-! ## Sample inputs -/

namespace UidMapping

/-- An environment in which every call succeeds, for a caller with UID and GID
1000 and a child with PID 4242. -/
def envOk : Env :=
  { uid := 1000, gid := 1000, pipeOk := true, cloneRet := some 4242,
    uidOpen := OpenRes.ok, uidWrite := 8, sgOpen := OpenRes.ok, sgWrite := 4,
    gidOpen := OpenRes.ok, gidWrite := 8, waitOk := true, child := WStatus.exited 0 }

/-- The option state of `uid_mapping -U -z`. -/
def optsZero : Opts :=
  { flags := CLONE_NEWUSER, verbose := false, map_zero := true, uid_map := none,
    gid_map := none }

/-- A complete schedule for `uid_mapping -U -z sh` in `envOk`: the child closes its
write end, the parent writes both maps and releases, the child runs to the
end of `sh`, the parent reaps it and exits. -/
def schedOk : List Proc :=
  [Proc.child] ++ List.replicate 10 Proc.parent ++ List.replicate 5 Proc.child ++
    List.replicate 2 Proc.parent

/-- The command line `uid_mapping -U -z sh`. -/
def argvZero : List Str :=
  ["uid_mapping".toList, "-U".toList, "-z".toList, "sh".toList]

/-- The command line `uid_mapping -U -M "0 1000 1" -G "0 1000 1" sh`. -/
def argvMaps : List Str :=
  ["uid_mapping".toList, "-U".toList, "-M".toList, "0 1000 1".toList, "-G".toList,
   "0 1000 1".toList, "sh".toList]

/-- The command line `uid_mapping -U`, which has no command word. -/
def argvNoCmd : List Str := ["uid_mapping".toList, "-U".toList]

/-- The environment `envOk` except that opening the child's `uid_map` fails with
`EACCES` (13). -/
def envDenied : Env := { envOk with uidOpen := OpenRes.fail 13 }

/-- A schedule for `uid_mapping -U -z sh` in `envDenied`: the child closes its
write end, the parent fails to open `uid_map`, reports it and exits, and the
child then runs to the end of `sh`. -/
def schedDenied : List Proc :=
  [Proc.child] ++ List.replicate 3 Proc.parent ++ List.replicate 5 Proc.child

/-- The final state of `schedDenied`. -/
def finalDenied : Sys :=
  (run schedDenied (launch "uid_mapping".toList optsZero 4242 envDenied ["sh".toList]
    ⟨0, some (WStatus.exited 0)⟩)).getD (initSys [] [])

/-- Whether an event is a call of `waitpid`. -/
def isWait : Ev → Bool
  | .waitpid _ _ => true
  | _ => false

/-- The option state `st` with the mapping options replaced by `-z` alone. -/
def withZero (st : Opts) : Opts :=
  { st with map_zero := true, uid_map := none, gid_map := none }

/-- The option state `st` with the mapping options replaced by `-M u -G g`. -/
def withMaps (st : Opts) (u g : Str) : Opts :=
  { st with map_zero := false, uid_map := some u, gid_map := some g }

/-- The final state of `schedOk`. -/
def finalOk : Sys :=
  (run schedOk (launch "uid_mapping".toList optsZero 4242 envOk ["sh".toList]
    ⟨0, some (WStatus.exited 0)⟩)).getD (initSys [] [])

end UidMapping

/-! ## `main` of `unshare_demo` -/

namespace UnshareDemo

open UidMapping

/-- What the kernel answers to `unshare_demo`: whether `unshare` succeeds, and the
fate of `execvp` (`none`: it returned). -/
structure Env where
  unshareOk : Bool
  exec : Option WStatus
  deriving DecidableEq, Repr

/-- The `switch (opt)` of `main`; `none` is the `default:` branch, `usage(argv[0])`. -/
def optSwitch (flags : Nat) (opt : Char) : Option Nat :=
  if opt = 'i' then some (flags ||| CLONE_NEWIPC)
  else if opt = 'm' then some (flags ||| CLONE_NEWNS)
  else if opt = 'n' then some (flags ||| CLONE_NEWNET)
  else if opt = 'p' then some (flags ||| CLONE_NEWPID)
  else if opt = 'u' then some (flags ||| CLONE_NEWUTS)
  else if opt = 'U' then some (flags ||| CLONE_NEWUSER)
  else none

/-- The option loop of `main` over the values returned by `getopt`. -/
def parseLoop : List (Char × Option Str) → Nat → Option Nat
  | [], flags => some flags
  | (opt, _) :: rest, flags =>
    match optSwitch flags opt with
    | none => none
    | some flags' => parseLoop rest flags'

/-- The function `main` of `unshare_demo`.  `errExit(msg)` is `perror(msg)` followed
by `exit(EXIT_FAILURE)`; `argv[2]` and `&argv[2]` are read from the vector as
`getopt` left it. -/
def main (argv : List Str) (env : Env) : List Ev :=
  let g := getopt "imnpuU".toList argv
  match parseLoop g.rets 0 with
  | none => [.usage, .exit EXIT_FAILURE]
  | some flags =>
    if g.optind ≥ argv.length then [.usage, .exit EXIT_FAILURE]
    else if !env.unshareOk then
      [.unshare flags false, .eprintf "unshare".toList none, .exit EXIT_FAILURE]
    else
      [.unshare flags true, .execvp (g.argv.get? 2) (g.argv.drop 2) env.exec.isSome] ++
      (match env.exec with
       | some st => [.terminated st]
       | none => [.eprintf "execvp".toList none, .exit EXIT_FAILURE])

/-- The command line `unshare_demo -i -m sh`. -/
def argvTwoOpts : List Str :=
  ["unshare_demo".toList, "-i".toList, "-m".toList, "sh".toList]

end UnshareDemo

/-! ## Facts about `update_map` -/

namespace UidMapping

theorem replaceLoop_length (n : Nat) : ∀ (j : Nat) (m : Str),
    (replaceLoop n j m).length = m.length := by
  induction n with
  | zero => intro j m; rfl
  | succ n ih =>
    intro j m
    simp only [replaceLoop]
    rw [ih]
    split <;> simp

theorem replaceLoop_getElem? (n : Nat) : ∀ (j : Nat) (m : Str) (i : Nat),
    (replaceLoop n j m)[i]? =
      if j ≤ i ∧ i < j + n then (m[i]?).map commaToNewline else m[i]? := by
  induction n with
  | zero =>
    intro j m i
    have h : ¬ (j ≤ i ∧ i < j + 0) := by omega
    rw [if_neg h]
    rfl
  | succ n ih =>
    intro j m i
    simp only [replaceLoop]
    rw [ih]
    by_cases hij : i = j
    · subst hij
      have h1 : ¬ (i + 1 ≤ i ∧ i < i + 1 + n) := by omega
      have h2 : (i ≤ i ∧ i < i + (n + 1)) := by omega
      rw [if_neg h1, if_pos h2]
      by_cases hc : m.get? i = some ','
      · rw [if_pos hc]
        have hc' : m[i]? = some ',' := by simpa using hc
        have hlt : i < m.length := by
          by_contra hge
          have : m[i]? = none := List.getElem?_eq_none (by omega)
          rw [this] at hc'
          exact Option.noConfusion hc'
        rw [hc']
        simp [commaToNewline, List.getElem?_set, hlt]
      · rw [if_neg hc]
        have hc' : ¬ m[i]? = some ',' := by simpa using hc
        cases hm : m[i]? with
        | none => rfl
        | some c =>
          have : c ≠ ',' := by
            intro h
            apply hc'
            rw [hm, h]
          simp [commaToNewline, this]
    · have hset : (if m.get? j = some ',' then m.set j '\n' else m)[i]? = m[i]? := by
        split
        · rw [List.getElem?_set]
          have : ¬ j = i := fun h => hij h.symm
          simp [this]
        · rfl
      rw [hset]
      by_cases h1 : j + 1 ≤ i ∧ i < j + 1 + n
      · have h2 : j ≤ i ∧ i < j + (n + 1) := by omega
        rw [if_pos h1, if_pos h2]
      · have h2 : ¬ (j ≤ i ∧ i < j + (n + 1)) := by omega
        rw [if_neg h1, if_neg h2]

/-- The loop of `update_map` is the pointwise replacement of commas. -/
theorem payload_eq_map (s : Str) : payload s = s.map commaToNewline := by
  apply List.ext_getElem?
  intro i
  unfold payload
  rw [replaceLoop_getElem?]
  by_cases h : i < s.length
  · have : 0 ≤ i ∧ i < 0 + s.length := by omega
    rw [if_pos this]
    simp
  · have h1 : ¬ (0 ≤ i ∧ i < 0 + s.length) := by omega
    rw [if_neg h1]
    have h2 : s[i]? = none := List.getElem?_eq_none (by omega)
    rw [h2]
    symm
    apply List.getElem?_eq_none
    simp
    omega

theorem map_commaToNewline_of_not_mem (r : Str) (h : ',' ∉ r) :
    r.map commaToNewline = r := by
  induction r with
  | nil => rfl
  | cons c cs ih =>
    have hc : c ≠ ',' := fun e => h (by simp [e])
    have hcs : ',' ∉ cs := fun e => h (by simp [e])
    simp [commaToNewline, hc, ih hcs]

theorem payload_intercalate (records : List Str) (h : ∀ r ∈ records, ',' ∉ r) :
    payload ([','].intercalate records) = ['\n'].intercalate records := by
  rw [payload_eq_map]
  induction records with
  | nil => rfl
  | cons r rs ih =>
    cases rs with
    | nil =>
      simp [List.intercalate, List.intersperse]
      exact map_commaToNewline_of_not_mem r (h r (by simp))
    | cons r2 rs2 =>
      have ih' := ih (fun x hx => h x (List.mem_cons_of_mem _ hx))
      simp only [List.intercalate, List.intersperse, List.flatten, List.map_append] at ih' ⊢
      rw [ih', map_commaToNewline_of_not_mem r (h r (by simp))]
      simp [commaToNewline]

/-- When the open succeeds, `update_map` opens the file and hands the buffer
`payload m` to `write`. -/
theorem update_map_open_ok (m f : Str) (r : Int) :
    ∃ rest, (update_map m f OpenRes.ok r).1 =
      Ev.open f OpenRes.ok :: Ev.write f (payload m) r :: rest := by
  unfold update_map
  simp only
  split
  · exact ⟨_, rfl⟩
  · exact ⟨_, rfl⟩

/-- Every `write` of `update_map` is on its map file, with the buffer `payload m`. -/
theorem update_map_write_mem (m f : Str) (o : OpenRes) (r : Int) (p b : Str) (r' : Int)
    (h : Ev.write p b r' ∈ (update_map m f o r).1) : p = f ∧ b = payload m ∧ r' = r := by
  unfold update_map at h
  cases o with
  | fail e => simp at h
  | ok =>
    simp only at h
    split at h
    · simp at h
      exact h
    · simp at h
      exact h

/-- The two ways in which `update_map` ends the program: the open failed, or the
open succeeded and `write` did not return the full length. -/
theorem update_map_fail_form (m f : Str) (o : OpenRes) (r : Int)
    (h : (update_map m f o r).2 = false) :
    (∃ errno, o = OpenRes.fail errno ∧
      (update_map m f o r).1 =
        [Ev.open f (OpenRes.fail errno),
         Ev.eprintf ("ERROR: open ".toList ++ f ++ ": ".toList) (some errno),
         Ev.exit 1]) ∨
    (o = OpenRes.ok ∧ r ≠ ((payload m).length : Int) ∧
      (update_map m f o r).1 =
        [Ev.open f OpenRes.ok, Ev.write f (payload m) r,
         Ev.eprintf ("ERROR: write ".toList ++ f ++ ": ".toList) none,
         Ev.exit 1]) := by
  unfold update_map at h ⊢
  cases o with
  | fail e =>
    refine Or.inl ⟨e, ?_, ?_⟩
    · rfl
    · rfl
  | ok =>
    simp only at h ⊢
    by_cases hr : r = ((payload m).length : Int)
    · simp [hr] at h
    · right
      refine ⟨?_, hr, ?_⟩
      · trivial
      · simp [hr, EXIT_FAILURE]

/-- C3 (amended): when the open succeeds `update_map` hands to `write` the buffer
`payload s`, and it writes nothing else; that buffer has the length of the
mapping string, a newline at every position where the string has a comma and
the string's own character at every other position (so the newlines are
exactly at the comma positions when the string has no newline of its own);
and for a non-empty list of records free of commas and newlines, splitting
the buffer made from their comma-joined string at newlines gives the records
back. -/
theorem update_map_payload_roundtrip (s : Str) :
    (∀ (map_file : Str) (ret : Int), ∃ rest,
        (update_map s map_file OpenRes.ok ret).1 =
          Ev.open map_file OpenRes.ok :: Ev.write map_file (payload s) ret :: rest) ∧
    (∀ (map_file : Str) (o : OpenRes) (ret : Int) (p b : Str) (r : Int),
        Ev.write p b r ∈ (update_map s map_file o ret).1 →
          p = map_file ∧ b = payload s ∧ r = ret) ∧
    (payload s).length = s.length ∧
    (∀ i (h : i < s.length) (h2 : i < (payload s).length),
        (s[i] = ',' → (payload s)[i] = '\n') ∧
        (s[i] ≠ ',' → (payload s)[i] = s[i])) ∧
    ('\n' ∉ s → ∀ i : Nat, ((payload s)[i]? = some '\n' ↔ s[i]? = some ',')) ∧
    (∀ records : List Str, records ≠ [] →
        (∀ r ∈ records, ',' ∉ r ∧ '\n' ∉ r) →
        (payload ([','].intercalate records)).splitOn '\n' = records) := by
  refine ⟨?_, ?_, ?_, ?_, ?_, ?_⟩
  · intro map_file ret
    exact update_map_open_ok s map_file ret
  · intro map_file o ret p b r hmem
    exact update_map_write_mem s map_file o ret p b r hmem
  · unfold payload
    exact replaceLoop_length _ _ _
  · intro i h h2
    have hp : (payload s)[i] = commaToNewline s[i] := by
      simp [payload_eq_map]
    rw [hp]
    constructor
    · intro hc
      simp [commaToNewline, hc]
    · intro hc
      simp [commaToNewline, hc]
  · intro hnl i
    rw [payload_eq_map, List.getElem?_map]
    cases hc : s[i]? with
    | none => simp
    | some c =>
      have hmem : c ∈ s := List.mem_iff_getElem?.2 ⟨i, hc⟩
      have hne : c ≠ '\n' := fun e => hnl (e ▸ hmem)
      by_cases hcomma : c = ','
      · simp [commaToNewline, hcomma]
      · simp [commaToNewline, hcomma, hne]
  · intro records hne hrec
    rw [payload_intercalate records (fun r hr => (hrec r hr).1)]
    exact List.splitOn_intercalate records '\n' (fun r hr => (hrec r hr).2) hne

theorem update_map_payload_roundtrip_witness :
    (∃ rest, (update_map "0 1000 1,1 2000 5".toList "/proc/4242/uid_map".toList
        OpenRes.ok 17).1 =
      Ev.open "/proc/4242/uid_map".toList OpenRes.ok ::
        Ev.write "/proc/4242/uid_map".toList (payload "0 1000 1,1 2000 5".toList) 17 ::
        rest) ∧
    payload "0 1000 1,1 2000 5".toList = "0 1000 1\n1 2000 5".toList ∧
    (∀ i : Nat, ((payload "0 1000 1,1 2000 5".toList)[i]? = some '\n' ↔
      "0 1000 1,1 2000 5".toList[i]? = some ',')) ∧
    (payload ([','].intercalate ["0 1000 1".toList, "1 2000 5".toList])).splitOn '\n'
      = ["0 1000 1".toList, "1 2000 5".toList] :=
  ⟨(update_map_payload_roundtrip "0 1000 1,1 2000 5".toList).1
      "/proc/4242/uid_map".toList 17,
   by decide,
   (update_map_payload_roundtrip "0 1000 1,1 2000 5".toList).2.2.2.2.1 (by decide),
   (update_map_payload_roundtrip []).2.2.2.2.2 ["0 1000 1".toList, "1 2000 5".toList]
     (by decide) (by decide)⟩

/-- C3 (as stated) fails for a mapping string that already holds a newline: for
the string `a`, newline, `b` the buffer written by `update_map` is the string
itself, with a newline at position 1, where the string has no comma. -/
theorem payload_newline_counterexample :
    (update_map "a\nb".toList "/proc/4242/uid_map".toList OpenRes.ok 3).1 =
      [Ev.open "/proc/4242/uid_map".toList OpenRes.ok,
       Ev.write "/proc/4242/uid_map".toList "a\nb".toList 3,
       Ev.close "/proc/4242/uid_map".toList] ∧
    payload "a\nb".toList = "a\nb".toList ∧
    (payload "a\nb".toList)[1]? = some '\n' ∧
    "a\nb".toList[1]? ≠ some ',' ∧
    ¬ (∀ i : Nat, ((payload "a\nb".toList)[i]? = some '\n' ↔
        "a\nb".toList[i]? = some ',')) := by
  refine ⟨by decide, by decide, by decide, by decide, ?_⟩
  intro h
  have h1 := (h 1).1 (by decide)
  revert h1
  decide

end UidMapping

/-! ## Facts about the decimal conversion -/

namespace UidMapping

theorem digitChar_ne_comma (k : Nat) (h : k < 10) : Nat.digitChar k ≠ ',' := by
  interval_cases k <;> decide

theorem toDigitsCore_no_comma (f : Nat) : ∀ (n : Nat) (ds : Str),
    ',' ∉ ds → ',' ∉ Nat.toDigitsCore 10 f n ds := by
  induction f with
  | zero => intro n ds h; simpa [Nat.toDigitsCore] using h
  | succ f ih =>
    intro n ds h
    have hd : Nat.digitChar (n % 10) ≠ ',' := digitChar_ne_comma _ (Nat.mod_lt _ (by decide))
    have hcons : ',' ∉ Nat.digitChar (n % 10) :: ds := by
      intro hm
      rcases List.mem_cons.1 hm with h1 | h1
      · exact hd h1.symm
      · exact h h1
    simp only [Nat.toDigitsCore]
    split
    · exact hcons
    · exact ih _ _ hcons

theorem fmtDec_no_comma (n : Nat) : ',' ∉ fmtDec n :=
  toDigitsCore_no_comma _ _ _ (by simp)

theorem fmtDec_length (n : Nat) (h : n < 2 ^ 32) : (fmtDec n).length ≤ 10 :=
  Nat.toDigitsCore_length 10 (by decide) (n + 1) n 10
    (lt_of_lt_of_le h (by norm_num)) (by decide)

theorem snprintf_zeroMapText (id : Nat) (h : id < 2 ^ 32) :
    snprintf MAP_BUF_SIZE (zeroMapText id) = zeroMapText id := by
  unfold snprintf
  apply List.take_of_length_le
  have := fmtDec_length id h
  simp [zeroMapText, MAP_BUF_SIZE]
  omega

theorem payload_zeroMapText (id : Nat) : payload (zeroMapText id) = zeroMapText id := by
  rw [payload_eq_map]
  apply map_commaToNewline_of_not_mem
  have := fmtDec_no_comma id
  simp [zeroMapText, this]

end UidMapping

/-! ## Validation, the child, and the setgroups step -/

namespace UidMapping

theorem update_map_isMapEv (m f : Str) (o : OpenRes) (r : Int) :
    ∀ e ∈ (update_map m f o r).1, isMapEv e = true := by
  unfold update_map
  cases o with
  | fail e => simp [isMapEv]
  | ok =>
    simp only
    split <;> simp [isMapEv]

/-- When `update_map` returns, it has opened the file, written the whole buffer
and closed the file. -/
theorem update_map_ok (m f : Str) (o : OpenRes) (r : Int)
    (h : (update_map m f o r).2 = true) :
    o = OpenRes.ok ∧ r = ((payload m).length : Int) ∧
    (update_map m f o r).1 =
      [Ev.open f OpenRes.ok, Ev.write f (payload m) ((payload m).length : Int), Ev.close f] := by
  unfold update_map at h ⊢
  cases o with
  | fail e => simp at h
  | ok =>
    simp only at h ⊢
    by_cases hr : r = ((payload m).length : Int)
    · simp [hr]
    · simp [hr] at h

/-- When `update_map` does not return, its last two actions are a diagnostic
whose text contains the name of the map file and `exit(EXIT_FAILURE)`; before
them there is no `exit`. -/
theorem update_map_fail (m f : Str) (o : OpenRes) (r : Int)
    (h : (update_map m f o r).2 = false) :
    ∃ pre op e, (update_map m f o r).1 =
        pre ++ [Ev.eprintf (op ++ f ++ ": ".toList) e, Ev.exit 1] ∧
      (op = "ERROR: open ".toList ∨ op = "ERROR: write ".toList) ∧
      (∀ x ∈ pre, isExit x = false) ∧
      (o ≠ OpenRes.ok ∨ r ≠ ((payload m).length : Int)) := by
  unfold update_map at h ⊢
  cases o with
  | fail e =>
    refine ⟨[Ev.open f (OpenRes.fail e)], "ERROR: open ".toList, some e, rfl, Or.inl rfl, ?_, ?_⟩
    · simp [isExit]
    · simp
  | ok =>
    simp only at h ⊢
    by_cases hr : r = ((payload m).length : Int)
    · simp [hr] at h
    · refine ⟨[Ev.open f OpenRes.ok, Ev.write f (payload m) r], "ERROR: write ".toList, none,
        ?_, Or.inr rfl, ?_, Or.inr hr⟩
      · simp [hr, EXIT_FAILURE]
      · simp [isExit]

theorem setgroups_isMapEv (pid : Nat) (s : Str) (o : OpenRes) (r : Int) :
    ∀ e ∈ proc_setgroups_write pid s o r, isMapEv e = true ∧ isExit e = false := by
  unfold proc_setgroups_write
  cases o with
  | fail e =>
    simp only
    split <;> simp [isMapEv, isExit]
  | ok =>
    simp only
    split <;> simp [isMapEv, isExit]

/-- The UID block either does nothing or is one call of `update_map` on the child's
`uid_map`. -/
theorem uidStep_cases (st : Opts) (pid : Nat) (env : Env) :
    (uidStep st pid env = ([], true) ∧ st.uid_map = none ∧ st.map_zero = false) ∨
    (∃ m, uidMapArg st env = some m ∧ (st.uid_map.isSome ∨ st.map_zero = true) ∧
      uidStep st pid env = update_map m (uidMapPath pid) env.uidOpen env.uidWrite) := by
  unfold uidStep
  by_cases hc : (st.uid_map.isSome || st.map_zero) = true
  · right
    rw [if_pos hc]
    have hsome : ∃ m, uidMapArg st env = some m := by
      unfold uidMapArg
      by_cases hz : st.map_zero = true
      · exact ⟨_, if_pos hz⟩
      · rw [if_neg hz]
        have : st.uid_map.isSome = true := by simpa [hz] using hc
        exact Option.isSome_iff_exists.1 this
    obtain ⟨m, hm⟩ := hsome
    refine ⟨m, hm, by simpa using hc, ?_⟩
    rw [hm]
  · left
    rw [if_neg hc]
    have : st.uid_map.isSome = false ∧ st.map_zero = false := by simpa using hc
    exact ⟨rfl, by simpa using this.1, this.2⟩

/-- The GID block either does nothing or is `proc_setgroups_write` followed by one
call of `update_map` on the child's `gid_map`. -/
theorem gidStep_cases (st : Opts) (pid : Nat) (env : Env) :
    (gidStep st pid env = ([], true) ∧ st.gid_map = none ∧ st.map_zero = false) ∨
    (∃ m, gidMapArg st env = some m ∧ (st.gid_map.isSome ∨ st.map_zero = true) ∧
      gidStep st pid env =
        (proc_setgroups_write pid "deny".toList env.sgOpen env.sgWrite ++
          (update_map m (gidMapPath pid) env.gidOpen env.gidWrite).1,
         (update_map m (gidMapPath pid) env.gidOpen env.gidWrite).2)) := by
  unfold gidStep
  by_cases hc : (st.gid_map.isSome || st.map_zero) = true
  · right
    rw [if_pos hc]
    have hsome : ∃ m, gidMapArg st env = some m := by
      unfold gidMapArg
      by_cases hz : st.map_zero = true
      · exact ⟨_, if_pos hz⟩
      · rw [if_neg hz]
        have : st.gid_map.isSome = true := by simpa [hz] using hc
        exact Option.isSome_iff_exists.1 this
    obtain ⟨m, hm⟩ := hsome
    refine ⟨m, hm, by simpa using hc, ?_⟩
    rw [hm]
  · left
    rw [if_neg hc]
    have : st.gid_map.isSome = false ∧ st.map_zero = false := by simpa using hc
    exact ⟨rfl, by simpa using this.1, this.2⟩

theorem uidStep_isMapEv (st : Opts) (pid : Nat) (env : Env) :
    ∀ e ∈ (uidStep st pid env).1, isMapEv e = true := by
  rcases uidStep_cases st pid env with ⟨h, _⟩ | ⟨m, _, _, h⟩
  · rw [h]; simp
  · rw [h]; exact update_map_isMapEv _ _ _ _

theorem gidStep_isMapEv (st : Opts) (pid : Nat) (env : Env) :
    ∀ e ∈ (gidStep st pid env).1, isMapEv e = true := by
  rcases gidStep_cases st pid env with ⟨h, _⟩ | ⟨m, _, _, h⟩
  · rw [h]; simp
  · rw [h]
    intro e he
    rcases List.mem_append.1 he with h1 | h1
    · exact (setgroups_isMapEv _ _ _ _ e h1).1
    · exact update_map_isMapEv _ _ _ _ e h1

theorem mapSteps_isMapEv (st : Opts) (pid : Nat) (env : Env) :
    ∀ e ∈ (mapSteps st pid env).1, isMapEv e = true := by
  unfold mapSteps
  simp only
  split
  · intro e he
    rcases List.mem_append.1 he with h1 | h1
    · exact uidStep_isMapEv _ _ _ e h1
    · exact gidStep_isMapEv _ _ _ e h1
  · exact uidStep_isMapEv _ _ _

theorem usage_not_mem_parentAfterClone (prog : Str) (st : Opts) (pid : Nat) (env : Env) :
    Ev.usage ∉ parentAfterClone prog st pid env := by
  have hm : Ev.usage ∉ (mapSteps st pid env).1 := fun h => by
    have := mapSteps_isMapEv st pid env _ h
    simp [isMapEv] at this
  have hw : Ev.usage ∉ waitSteps prog st pid env := by
    unfold waitSteps
    split
    · split <;> simp
    · simp
  unfold parentAfterClone
  simp only [List.mem_append, not_or]
  constructor
  · split <;> simp
  · split
    · simp only [List.mem_append, List.mem_cons, not_or]
      exact ⟨hm, by simp, hw⟩
    · exact hm

/-- When every option is recognised, `main` is the code after the option loop run
on the state that the loop has built, with `&argv[optind]` as the command. -/
theorem main_eq_afterParse (argv : List Str) (env : Env) (st : Opts)
    (h : parseLoop (getopt "+imnpuUM:G:zv".toList argv).rets Opts.init = some st) :
    main argv env =
      afterParse (argv.headD []) st
        ((getopt "+imnpuUM:G:zv".toList argv).argv.drop
          (getopt "+imnpuUM:G:zv".toList argv).optind) env := by
  unfold main
  simp only [h]

/-- C1: after the option loop, `main` calls `usage` and exits with status 1, before
`pipe` and `clone`, exactly when a mapping option (`-M`, `-G`, `-z`) is given
without the `CLONE_NEWUSER` bit, or `-z` is given together with `-M` or `-G`;
in every other state no usage error is raised and `pipe` is the first call. -/
theorem validation_usage_iff (prog : Str) (st : Opts) (cmd : List Str) (env : Env) :
    (afterParse prog st cmd env = [Ev.usage, Ev.exit 1] ↔
      (((st.uid_map ≠ none ∨ st.gid_map ≠ none ∨ st.map_zero = true)
          ∧ st.flags &&& CLONE_NEWUSER = 0)
        ∨ (st.map_zero = true ∧ (st.uid_map ≠ none ∨ st.gid_map ≠ none)))) ∧
    (Ev.usage ∈ afterParse prog st cmd env ↔
      (((st.uid_map ≠ none ∨ st.gid_map ≠ none ∨ st.map_zero = true)
          ∧ st.flags &&& CLONE_NEWUSER = 0)
        ∨ (st.map_zero = true ∧ (st.uid_map ≠ none ∨ st.gid_map ≠ none)))) ∧
    (Ev.usage ∉ afterParse prog st cmd env →
      afterParse prog st cmd env ≠ [] ∧
      ∃ ok, (afterParse prog st cmd env).head? = some (Ev.pipe ok)) := by
  have hbad : invalidOpts st = true ↔
      (((st.uid_map ≠ none ∨ st.gid_map ≠ none ∨ st.map_zero = true)
          ∧ st.flags &&& CLONE_NEWUSER = 0)
        ∨ (st.map_zero = true ∧ (st.uid_map ≠ none ∨ st.gid_map ≠ none))) := by
    unfold invalidOpts
    cases st.uid_map <;> cases st.gid_map <;> cases st.map_zero <;> simp
  have hgood : invalidOpts st = false →
      Ev.usage ∉ afterParse prog st cmd env ∧
      ∃ ok, (afterParse prog st cmd env).head? = some (Ev.pipe ok) := by
    intro hv
    unfold afterParse
    rw [if_neg (by simp [hv])]
    split
    · simp
    · split
      · simp
      · refine ⟨?_, ⟨true, by simp⟩⟩
        simp only [List.mem_append, List.mem_cons, not_or]
        exact ⟨by simp, usage_not_mem_parentAfterClone _ _ _ _⟩
  have hbad2 : invalidOpts st = true → afterParse prog st cmd env = [Ev.usage, Ev.exit 1] := by
    intro hv
    unfold afterParse
    rw [if_pos hv]
    rfl
  refine ⟨?_, ?_, ?_⟩
  · rw [← hbad]
    constructor
    · intro h
      by_contra hv
      have := (hgood (by simpa using hv)).1
      rw [h] at this
      simp at this
    · exact hbad2
  · rw [← hbad]
    constructor
    · intro h
      by_contra hv
      exact (hgood (by simpa using hv)).1 h
    · intro hv
      rw [hbad2 hv]
      simp
  · intro h
    have hv : invalidOpts st = false := by
      by_contra hv
      rw [hbad2 (by simpa using hv)] at h
      simp at h
    obtain ⟨_, ok, hok⟩ := hgood hv
    refine ⟨?_, ok, hok⟩
    intro he
    rw [he] at hok
    simp at hok

/-- C8: `childFunc` first closes its copy of the pipe's write end, then reads; it
calls `execvp(argv[0], argv)` exactly when the read returned 0, and for every
other result it prints a failure message and exits with status 1 without any
`execvp`. -/
theorem childFunc_exec_iff (argv : List Str) (cenv : ChildEnv) :
    (∃ rest, childFunc argv cenv = Ev.closePipeWrite :: Ev.read cenv.readRet :: rest ∧
      ((∃ ok, Ev.execvp argv.head? argv ok ∈ rest) ↔ cenv.readRet = 0)) ∧
    ((∃ f a ok, Ev.execvp f a ok ∈ childFunc argv cenv) ↔ cenv.readRet = 0) ∧
    (∀ f a ok, Ev.execvp f a ok ∈ childFunc argv cenv → f = argv.head? ∧ a = argv) ∧
    (cenv.readRet ≠ 0 →
      childFunc argv cenv =
        [Ev.closePipeWrite, Ev.read cenv.readRet,
         Ev.eprintf "Failure in child: read from pipe returned != 0\n".toList none,
         Ev.exit 1]) := by
  unfold childFunc
  by_cases h : cenv.readRet = 0
  · have hn : ¬ cenv.readRet ≠ 0 := by simpa using h
    simp only [if_neg hn]
    refine ⟨⟨_, rfl, ?_⟩, ?_, ?_, ?_⟩
    · simp [h]
    · simp only [h, iff_true]
      exact ⟨argv.head?, argv, cenv.exec.isSome, by simp⟩
    · intro f a ok hm
      cases hex : cenv.exec <;> simp [hex] at hm <;> exact ⟨hm.1, hm.2.1⟩
    · intro hne
      exact absurd h hne
  · simp only [if_pos h]
    refine ⟨⟨_, rfl, ?_⟩, ?_, ?_, ?_⟩
    · simp [h]
    · simp [h]
    · intro f a ok hm
      simp at hm
    · intro _
      rfl

theorem childFunc_exec_iff_witness :
    childFunc ["sh".toList] ⟨1, none⟩ =
      [Ev.closePipeWrite, Ev.read 1,
       Ev.eprintf "Failure in child: read from pipe returned != 0\n".toList none,
       Ev.exit 1] :=
  (childFunc_exec_iff ["sh".toList] ⟨1, none⟩).2.2.2 (by decide)

end UidMapping

/-! ## Lists and traces -/

namespace UidMapping

theorem getElem?_snoc_cases {α : Type} {t : List α} {x y : α} {i : Nat}
    (h : (t ++ [x])[i]? = some y) : t[i]? = some y ∨ (i = t.length ∧ x = y) := by
  by_cases hi : i < t.length
  · left
    rw [List.getElem?_append_left hi] at h
    exact h
  · right
    have hle : t.length ≤ i := by omega
    rw [List.getElem?_append_right hle] at h
    by_cases h0 : i - t.length = 0
    · rw [h0] at h
      simp at h
      exact ⟨by omega, h⟩
    · have : [x][i - t.length]? = none := List.getElem?_eq_none (by simp; omega)
      rw [this] at h
      exact Option.noConfusion h

theorem getElem?_snoc_old {α : Type} {t : List α} {x y : α} {i : Nat}
    (h : t[i]? = some y) : (t ++ [x])[i]? = some y ∧ i < t.length := by
  have hi : i < t.length := by
    by_contra hn
    have : t[i]? = none := List.getElem?_eq_none (by omega)
    rw [this] at h
    exact Option.noConfusion h
  exact ⟨by rw [List.getElem?_append_left hi]; exact h, hi⟩

theorem exists_index_of_mem {α : Type} {t : List α} {a : α} (h : a ∈ t) :
    ∃ n, n < t.length ∧ t[n]? = some a := by
  obtain ⟨n, hn⟩ := List.mem_iff_getElem?.1 h
  exact ⟨n, (getElem?_snoc_old (x := a) hn).2, hn⟩

theorem before_snoc {α : Type} {t : List α} {A B : α → Prop} {x : α}
    (h : Before t A B) (hx : B x → ∃ a ∈ t, A a) : Before (t ++ [x]) A B := by
  intro i b hi hb
  rcases getElem?_snoc_cases hi with hold | ⟨hnew, hxb⟩
  · obtain ⟨j, a, hj, hja, ha⟩ := h i b hold hb
    exact ⟨j, a, hj, (getElem?_snoc_old hja).1, ha⟩
  · subst hxb
    obtain ⟨a, hat, ha⟩ := hx hb
    obtain ⟨n, hn, hna⟩ := exists_index_of_mem hat
    exact ⟨n, a, by omega, (getElem?_snoc_old hna).1, ha⟩

theorem notAfter_snoc {α : Type} {t : List α} {X Y : α → Prop} {e : α}
    (h : NotAfter t X Y) (hxy : ¬ (X e ∧ Y e)) (hy : Y e → ∀ x ∈ t, ¬ X x) :
    NotAfter (t ++ [e]) X Y := by
  intro i j x y hi hx hj hyy
  rcases getElem?_snoc_cases hi with hiold | ⟨hinew, hex⟩
  · rcases getElem?_snoc_cases hj with hjold | ⟨hjnew, hey⟩
    · exact h i j x y hiold hx hjold hyy
    · subst hey
      exact absurd hx (hy hyy x (List.mem_iff_getElem?.2 ⟨i, hiold⟩))
  · rcases getElem?_snoc_cases hj with hjold | ⟨hjnew, hey⟩
    · have := (getElem?_snoc_old (x := e) hjold).2
      omega
    · subst hex
      subst hey
      exact absurd ⟨hx, hyy⟩ hxy

/-- If the first list has no element satisfying `p` before the cut, every split
at an element satisfying `p` starts with that list. -/
theorem starts_with_of_first {α : Type} {p : α → Prop} : ∀ (a s b t : List α) (y : α),
    (∀ x ∈ a, ¬ p x) → p y → a ++ s = b ++ y :: t → ∃ c, b = a ++ c := by
  intro a
  induction a with
  | nil => intro s b t y _ _ _; exact ⟨b, rfl⟩
  | cons a0 a ih =>
    intro s b t y ha hy heq
    cases b with
    | nil =>
      simp at heq
      exact absurd (heq.1 ▸ hy) (ha a0 (by simp))
    | cons b0 b =>
      simp at heq
      obtain ⟨c, hc⟩ := ih s b t y (fun x hx => ha x (List.mem_cons_of_mem _ hx)) hy heq.2
      exact ⟨c, by rw [heq.1, hc]; rfl⟩

/-- The first element satisfying `p` splits a list in only one way. -/
theorem first_unique {α : Type} {p : α → Prop} : ∀ (a s b t : List α) (x y : α),
    (∀ z ∈ a, ¬ p z) → p x → (∀ z ∈ b, ¬ p z) → p y →
    a ++ x :: s = b ++ y :: t → a = b ∧ x = y ∧ s = t := by
  intro a
  induction a with
  | nil =>
    intro s b t x y _ hx hb _ heq
    cases b with
    | nil => simp at heq; exact ⟨rfl, heq.1, heq.2⟩
    | cons b0 b =>
      simp at heq
      exact absurd (heq.1 ▸ hx) (hb b0 (by simp))
  | cons a0 a ih =>
    intro s b t x y ha hx hb hy heq
    cases b with
    | nil =>
      simp at heq
      exact absurd (heq.1 ▸ hy) (ha a0 (by simp))
    | cons b0 b =>
      simp at heq
      obtain ⟨h1, h2, h3⟩ := ih s b t x y (fun z hz => ha z (List.mem_cons_of_mem _ hz)) hx
        (fun z hz => hb z (List.mem_cons_of_mem _ hz)) hy heq.2
      exact ⟨by rw [heq.1, h1], h2, h3⟩

/-- An element that occurs on neither side of a cut determines the cut. -/
theorem split_unique_of_not_mem {α : Type} : ∀ (a s b t : List α) (x : α),
    x ∉ a → x ∉ s → a ++ x :: s = b ++ x :: t → a = b ∧ s = t := by
  intro a
  induction a with
  | nil =>
    intro s b t x _ hs heq
    cases b with
    | nil => simp at heq; exact ⟨rfl, heq⟩
    | cons b0 b =>
      simp at heq
      exfalso
      apply hs
      rw [heq.2]
      simp
  | cons a0 a ih =>
    intro s b t x ha hs heq
    cases b with
    | nil =>
      simp at heq
      exact absurd heq.1.symm (fun e => ha (by simp [e]))
    | cons b0 b =>
      simp at heq
      obtain ⟨h1, h2⟩ := ih s b t x (fun hm => ha (List.mem_cons_of_mem _ hm)) hs heq.2
      exact ⟨by rw [heq.1, h1], h2⟩

theorem proj_snoc_same (p : Proc) (t : List (Proc × Ev)) (e : Ev) :
    proj p (t ++ [(p, e)]) = proj p t ++ [e] := by
  simp [proj, List.filter_append]

theorem proj_snoc_other (p q : Proc) (t : List (Proc × Ev)) (e : Ev) (h : q ≠ p) :
    proj p (t ++ [(q, e)]) = proj p t := by
  simp [proj, List.filter_append, h]

theorem mem_proj (p : Proc) (t : List (Proc × Ev)) (e : Ev) :
    e ∈ proj p t ↔ (p, e) ∈ t := by
  unfold proj
  constructor
  · intro h
    obtain ⟨x, hx, hxe⟩ := List.mem_map.1 h
    have hx' := List.mem_filter.1 hx
    have h1 : x.1 = p := by simpa using hx'.2
    have : x = (p, e) := by
      cases x
      simp at h1 hxe
      simp [h1, hxe]
    rw [← this]
    exact hx'.1
  · intro h
    exact List.mem_map.2 ⟨(p, e), List.mem_filter.2 ⟨h, by simp⟩, rfl⟩

end UidMapping

/-! ## The invariant of the two-process runs -/

namespace UidMapping

theorem inv_init (P C : List Ev) (Rel W : Ev → Prop) (G : Prop) : Inv P C Rel W G (initSys P C) := by
  refine ⟨by simp [initSys, proj], by simp [initSys, proj], ?_, ?_, ?_, ?_, ?_, ?_⟩
  · intro _ e he
    simp [initSys] at he
  · intro h
    simp [initSys] at h
  · intro h
    simp [initSys] at h
  · intro i b hi
    simp [initSys] at hi
  · intro i j x y hi
    simp [initSys] at hi
  · intro i b hi
    simp [initSys] at hi

theorem inv_step_parent {P C : List Ev} {Rel W : Ev → Prop} {G : Prop}
    (hP1 : ∀ pre post, P = pre ++ Ev.closePipeWrite :: post →
      ∀ e ∈ pre, closesWriteEnd e = false)
    (hW : G → ∀ pre post, P = pre ++ Ev.closePipeWrite :: post → ∃ e ∈ pre, W e)
    (hRel : ∀ pre e post, P = pre ++ e :: post → closesWriteEnd e = true →
      (∀ x ∈ pre, closesWriteEnd x = false) → Rel e)
    (hRel2 : ∀ e, Rel e → closesWriteEnd e = true)
    {s : Sys} (hinv : Inv P C Rel W G s) {e : Ev} {rest : List Ev}
    (hs : s.parent = e :: rest) :
    Inv P C Rel W G
      { s with
        parent := rest
        parentW := s.parentW && !closesWriteEnd e
        trace := s.trace ++ [(Proc.parent, e)] } := by
  have hPeq : P = proj Proc.parent s.trace ++ e :: rest := by
    rw [← hinv.projP, hs]
  refine ⟨?_, ?_, ?_, ?_, ?_, ?_, ?_, ?_⟩
  · show proj Proc.parent (s.trace ++ [(Proc.parent, e)]) ++ rest = P
    rw [proj_snoc_same, hPeq]
    simp
  · show proj Proc.child (s.trace ++ [(Proc.parent, e)]) ++ s.child = C
    rw [proj_snoc_other _ _ _ _ (by decide)]
    exact hinv.projC
  · intro hopen e' he'
    have hopen' : s.parentW = true ∧ closesWriteEnd e = false := by
      simpa using hopen
    rcases List.mem_append.1 he' with h1 | h1
    · exact hinv.stillOpen hopen'.1 e' h1
    · have : e' = e := by simpa using h1
      rw [this]
      exact hopen'.2
  · intro hclosed
    show ∃ e', (Proc.parent, e') ∈ s.trace ++ [(Proc.parent, e)] ∧ Rel e'
    by_cases hw : s.parentW = true
    · have hce : closesWriteEnd e = true := by
        simpa [hw] using hclosed
      refine ⟨e, by simp, ?_⟩
      apply hRel _ e rest hPeq hce
      intro x hx
      exact hinv.stillOpen hw x ((mem_proj _ _ _).1 hx)
    · obtain ⟨e0, hm, hr⟩ := hinv.closed (by simpa using hw)
      exact ⟨e0, List.mem_append_left _ hm, hr⟩
  · intro hm
    show ∃ e', (Proc.parent, e') ∈ s.trace ++ [(Proc.parent, e)] ∧ Rel e'
    have hm' : (Proc.child, Ev.read 0) ∈ s.trace := by
      rcases List.mem_append.1 hm with h1 | h1
      · exact h1
      · simp at h1
    obtain ⟨e0, hm0, hr⟩ := hinv.eof hm'
    exact ⟨e0, List.mem_append_left _ hm0, hr⟩
  · apply before_snoc hinv.execAfter
    rintro ⟨f, a, ok, hx⟩
    simp at hx
  · apply notAfter_snoc hinv.noLateRelease
    · rintro ⟨⟨f, a, ok, hx⟩, _⟩
      simp at hx
    · intro hy x hx hX
      have hecpw : e = Ev.closePipeWrite := by simpa using hy
      obtain ⟨i, _, hi⟩ := exists_index_of_mem hx
      obtain ⟨j, a, _, hja, e0, ha, hr⟩ := hinv.execAfter i x hi hX
      have hmem : (Proc.parent, e0) ∈ s.trace := by
        rw [← ha]
        exact List.mem_iff_getElem?.2 ⟨j, hja⟩
      have h1 := hP1 _ rest (by rw [hPeq, hecpw]) e0 ((mem_proj _ _ _).2 hmem)
      rw [hRel2 e0 hr] at h1
      exact Bool.noConfusion h1
  · apply before_snoc hinv.writes
    rintro ⟨hG, hx⟩
    have hecpw : e = Ev.closePipeWrite := by simpa using hx
    obtain ⟨e0, hm, hw⟩ := hW hG _ rest (by rw [hPeq, hecpw])
    exact ⟨(Proc.parent, e0), (mem_proj _ _ _).1 hm, e0, rfl, hw⟩

theorem inv_step_child {P C : List Ev} {Rel W : Ev → Prop} {G : Prop}
    (hC : ∀ pre f a ok post, C = pre ++ Ev.execvp f a ok :: post → Ev.read 0 ∈ pre)
    {s : Sys} (hinv : Inv P C Rel W G s) {e : Ev} {rest : List Ev}
    (hs : s.child = e :: rest) (hen : childEnabled s e = true) :
    Inv P C Rel W G
      { s with
        child := rest
        childW := s.childW && !closesWriteEnd e
        childDead := s.childDead || endsProcess e
        trace := s.trace ++ [(Proc.child, e)] } := by
  have hCeq : C = proj Proc.child s.trace ++ e :: rest := by
    rw [← hinv.projC, hs]
  have hold : ∀ e', (Proc.parent, e') ∈ s.trace ++ [(Proc.child, e)] →
      (Proc.parent, e') ∈ s.trace := by
    intro e' he'
    rcases List.mem_append.1 he' with h1 | h1
    · exact h1
    · simp at h1
  refine ⟨?_, ?_, ?_, ?_, ?_, ?_, ?_, ?_⟩
  · show proj Proc.parent (s.trace ++ [(Proc.child, e)]) ++ s.parent = P
    rw [proj_snoc_other _ _ _ _ (by decide)]
    exact hinv.projP
  · show proj Proc.child (s.trace ++ [(Proc.child, e)]) ++ rest = C
    rw [proj_snoc_same, hCeq]
    simp
  · intro hopen e' he'
    exact hinv.stillOpen hopen e' (hold e' he')
  · intro hclosed
    obtain ⟨e0, hm, hr⟩ := hinv.closed hclosed
    exact ⟨e0, List.mem_append_left _ hm, hr⟩
  · intro hm
    show ∃ e', (Proc.parent, e') ∈ s.trace ++ [(Proc.child, e)] ∧ Rel e'
    rcases List.mem_append.1 hm with h1 | h1
    · obtain ⟨e0, hm0, hr⟩ := hinv.eof h1
      exact ⟨e0, List.mem_append_left _ hm0, hr⟩
    · have he : e = Ev.read 0 := by
        have := List.mem_singleton.1 h1
        simpa using this.symm
      rw [he] at hen
      have hw : s.parentW = false := by
        simp [childEnabled] at hen
        exact hen.1
      obtain ⟨e0, hm0, hr⟩ := hinv.closed hw
      exact ⟨e0, List.mem_append_left _ hm0, hr⟩
  · apply before_snoc hinv.execAfter
    rintro ⟨f, a, ok, hx⟩
    have he : e = Ev.execvp f a ok := by simpa using hx
    have hr := hC _ f a ok rest (by rw [hCeq, he])
    obtain ⟨e0, hm0, hr0⟩ := hinv.eof ((mem_proj _ _ _).1 hr)
    exact ⟨(Proc.parent, e0), hm0, e0, rfl, hr0⟩
  · apply notAfter_snoc hinv.noLateRelease
    · rintro ⟨_, hy⟩
      simp at hy
    · intro hy
      simp at hy
  · apply before_snoc hinv.writes
    rintro ⟨_, hx⟩
    simp at hx

theorem inv_step {P C : List Ev} {Rel W : Ev → Prop} {G : Prop}
    (hC : ∀ pre f a ok post, C = pre ++ Ev.execvp f a ok :: post → Ev.read 0 ∈ pre)
    (hP1 : ∀ pre post, P = pre ++ Ev.closePipeWrite :: post →
      ∀ e ∈ pre, closesWriteEnd e = false)
    (hW : G → ∀ pre post, P = pre ++ Ev.closePipeWrite :: post → ∃ e ∈ pre, W e)
    (hRel : ∀ pre e post, P = pre ++ e :: post → closesWriteEnd e = true →
      (∀ x ∈ pre, closesWriteEnd x = false) → Rel e)
    (hRel2 : ∀ e, Rel e → closesWriteEnd e = true)
    {s s' : Sys} (p : Proc) (hinv : Inv P C Rel W G s) (hstep : step p s = some s') :
    Inv P C Rel W G s' := by
  cases p with
  | parent =>
    unfold step at hstep
    simp only at hstep
    split at hstep
    · exact Option.noConfusion hstep
    · rename_i e rest hs
      split at hstep
      · injection hstep with hstep
        rw [← hstep]
        exact inv_step_parent hP1 hW hRel hRel2 hinv hs
      · exact Option.noConfusion hstep
  | child =>
    unfold step at hstep
    simp only at hstep
    split at hstep
    · exact Option.noConfusion hstep
    · rename_i e rest hs
      split at hstep
      · rename_i hen
        injection hstep with hstep
        rw [← hstep]
        exact inv_step_child hC hinv hs hen
      · exact Option.noConfusion hstep

theorem inv_run {P C : List Ev} {Rel W : Ev → Prop} {G : Prop}
    (hC : ∀ pre f a ok post, C = pre ++ Ev.execvp f a ok :: post → Ev.read 0 ∈ pre)
    (hP1 : ∀ pre post, P = pre ++ Ev.closePipeWrite :: post →
      ∀ e ∈ pre, closesWriteEnd e = false)
    (hW : G → ∀ pre post, P = pre ++ Ev.closePipeWrite :: post → ∃ e ∈ pre, W e)
    (hRel : ∀ pre e post, P = pre ++ e :: post → closesWriteEnd e = true →
      (∀ x ∈ pre, closesWriteEnd x = false) → Rel e)
    (hRel2 : ∀ e, Rel e → closesWriteEnd e = true)
    (sched : List Proc) : ∀ (s s' : Sys), Inv P C Rel W G s → run sched s = some s' →
      Inv P C Rel W G s' := by
  induction sched with
  | nil =>
    intro s s' hinv hrun
    simp [run] at hrun
    rw [← hrun]
    exact hinv
  | cons p ps ih =>
    intro s s' hinv hrun
    simp only [run] at hrun
    split at hrun
    · exact Option.noConfusion hrun
    · rename_i s1 hs1
      exact ih s1 s' (inv_step hC hP1 hW hRel hRel2 p hinv hs1) hrun

end UidMapping

/-! ## The shape of the parent's and the child's action lists -/

namespace UidMapping

theorem closes_false_of_mapEv (e : Ev) (h1 : isMapEv e = true) (h2 : isExit e = false) :
    closesWriteEnd e = false := by
  cases e <;> simp_all [isMapEv, isExit, closesWriteEnd]

theorem mapSteps_of_uid_ok (st : Opts) (pid : Nat) (env : Env)
    (h : (uidStep st pid env).2 = true) :
    mapSteps st pid env =
      ((uidStep st pid env).1 ++ (gidStep st pid env).1, (gidStep st pid env).2) := by
  unfold mapSteps
  simp [h]

theorem mapSteps_of_uid_fail (st : Opts) (pid : Nat) (env : Env)
    (h : (uidStep st pid env).2 = false) :
    mapSteps st pid env = uidStep st pid env := by
  unfold mapSteps
  simp [h]

/-- When the UID block lets control through, it performed no `exit`, and if a UID
mapping was requested it wrote the whole buffer to the child's `uid_map`. -/
theorem uidStep_ok (st : Opts) (pid : Nat) (env : Env)
    (h : (uidStep st pid env).2 = true) :
    (∀ e ∈ (uidStep st pid env).1, isExit e = false) ∧
    ((st.uid_map.isSome ∨ st.map_zero = true) →
      ∃ m, uidMapArg st env = some m ∧
        Ev.write (uidMapPath pid) (payload m) ((payload m).length : Int)
          ∈ (uidStep st pid env).1) := by
  rcases uidStep_cases st pid env with ⟨h0, hn, hz⟩ | ⟨m, hm, _, h0⟩
  · rw [h0]
    refine ⟨by simp, ?_⟩
    intro hreq
    simp [hn, hz] at hreq
  · rw [h0] at h ⊢
    obtain ⟨_, _, hev⟩ := update_map_ok _ _ _ _ h
    rw [hev]
    exact ⟨by simp [isExit], fun _ => ⟨m, hm, by simp⟩⟩

/-- When the GID block lets control through, it performed no `exit`, and if a GID
mapping was requested it wrote the whole buffer to the child's `gid_map`. -/
theorem gidStep_ok (st : Opts) (pid : Nat) (env : Env)
    (h : (gidStep st pid env).2 = true) :
    (∀ e ∈ (gidStep st pid env).1, isExit e = false) ∧
    ((st.gid_map.isSome ∨ st.map_zero = true) →
      ∃ m, gidMapArg st env = some m ∧
        Ev.write (gidMapPath pid) (payload m) ((payload m).length : Int)
          ∈ (gidStep st pid env).1) := by
  rcases gidStep_cases st pid env with ⟨h0, hn, hz⟩ | ⟨m, hm, _, h0⟩
  · rw [h0]
    refine ⟨by simp, ?_⟩
    intro hreq
    simp [hn, hz] at hreq
  · rw [h0] at h ⊢
    obtain ⟨_, _, hev⟩ := update_map_ok _ _ _ _ h
    simp only
    rw [hev]
    refine ⟨?_, fun _ => ⟨m, hm, by simp⟩⟩
    intro e he
    rcases List.mem_append.1 he with h1 | h1
    · exact (setgroups_isMapEv _ _ _ _ e h1).2
    · simp at h1
      rcases h1 with h1 | h1 | h1 <;> simp [h1, isExit]

/-- When both mapping blocks let control through, no `exit` was performed and each
requested mapping was written in full. -/
theorem mapSteps_ok (st : Opts) (pid : Nat) (env : Env)
    (h : (mapSteps st pid env).2 = true) :
    (∀ e ∈ (mapSteps st pid env).1, isExit e = false) ∧
    ((st.uid_map.isSome ∨ st.map_zero = true) →
      ∃ m, uidMapArg st env = some m ∧
        Ev.write (uidMapPath pid) (payload m) ((payload m).length : Int)
          ∈ (mapSteps st pid env).1) ∧
    ((st.gid_map.isSome ∨ st.map_zero = true) →
      ∃ m, gidMapArg st env = some m ∧
        Ev.write (gidMapPath pid) (payload m) ((payload m).length : Int)
          ∈ (mapSteps st pid env).1) := by
  by_cases hu : (uidStep st pid env).2 = true
  · rw [mapSteps_of_uid_ok st pid env hu] at h ⊢
    simp only at h ⊢
    obtain ⟨hu1, hu2⟩ := uidStep_ok st pid env hu
    obtain ⟨hg1, hg2⟩ := gidStep_ok st pid env h
    refine ⟨?_, ?_, ?_⟩
    · intro e he
      rcases List.mem_append.1 he with h1 | h1
      · exact hu1 e h1
      · exact hg1 e h1
    · intro hreq
      obtain ⟨m, hm, hw⟩ := hu2 hreq
      exact ⟨m, hm, List.mem_append_left _ hw⟩
    · intro hreq
      obtain ⟨m, hm, hw⟩ := hg2 hreq
      exact ⟨m, hm, List.mem_append_right _ hw⟩
  · have hu' : (uidStep st pid env).2 = false := by simpa using hu
    rw [mapSteps_of_uid_fail st pid env hu'] at h
    rw [h] at hu'
    exact Bool.noConfusion hu'

/-- When one of the mapping blocks ends the program, the last two actions are a
diagnostic that contains the path of the child's `uid_map` or `gid_map` and
`exit(EXIT_FAILURE)`, and there is no `exit` before them. -/
theorem mapSteps_fail (st : Opts) (pid : Nat) (env : Env)
    (h : (mapSteps st pid env).2 = false) :
    ∃ pre op f e, (mapSteps st pid env).1 =
        pre ++ [Ev.eprintf (op ++ f ++ ": ".toList) e, Ev.exit 1] ∧
      (op = "ERROR: open ".toList ∨ op = "ERROR: write ".toList) ∧
      (f = uidMapPath pid ∨ f = gidMapPath pid) ∧
      (∀ x ∈ pre, isExit x = false) := by
  by_cases hu : (uidStep st pid env).2 = true
  · rw [mapSteps_of_uid_ok st pid env hu] at h ⊢
    simp only at h ⊢
    obtain ⟨hu1, _⟩ := uidStep_ok st pid env hu
    rcases gidStep_cases st pid env with ⟨h0, _, _⟩ | ⟨m, _, _, h0⟩
    · rw [h0] at h
      exact Bool.noConfusion h
    · rw [h0] at h ⊢
      simp only at h ⊢
      obtain ⟨pre, op, e, hev, hop, hpre, _⟩ := update_map_fail _ _ _ _ h
      refine ⟨(uidStep st pid env).1 ++
        proc_setgroups_write pid "deny".toList env.sgOpen env.sgWrite ++ pre,
        op, gidMapPath pid, e, ?_, hop, Or.inr rfl, ?_⟩
      · rw [hev]
        simp
      · intro x hx
        rcases List.mem_append.1 hx with h1 | h1
        · rcases List.mem_append.1 h1 with h2 | h2
          · exact hu1 x h2
          · exact (setgroups_isMapEv _ _ _ _ x h2).2
        · exact hpre x h1
  · have hu' : (uidStep st pid env).2 = false := by simpa using hu
    rw [mapSteps_of_uid_fail st pid env hu'] at h ⊢
    rcases uidStep_cases st pid env with ⟨h0, _, _⟩ | ⟨m, _, _, h0⟩
    · rw [h0] at h
      exact Bool.noConfusion h
    · rw [h0] at h ⊢
      obtain ⟨pre, op, e, hev, hop, hpre, _⟩ := update_map_fail _ _ _ _ h
      exact ⟨pre, op, uidMapPath pid, e, hev, hop, Or.inl rfl, hpre⟩

/-- The message that `main` prints after `clone` when `-v` is given. -/
theorem verbose_closes_false (prog : Str) (st : Opts) (pid : Nat) :
    ∀ e ∈ (if st.verbose then
        [Ev.printf (prog ++ ": PID of child created by clone() is ".toList ++ fmtDec pid ++
          "\n".toList)]
      else []), closesWriteEnd e = false ∧ e ≠ Ev.closePipeWrite ∧
        (∀ p o, e ≠ Ev.waitpid p o) := by
  intro e he
  split at he
  · simp at he
    simp [he, closesWriteEnd]
  · simp at he

theorem waitSteps_no_release (prog : Str) (st : Opts) (pid : Nat) (env : Env) :
    Ev.closePipeWrite ∉ waitSteps prog st pid env := by
  unfold waitSteps
  split
  · split <;> simp
  · simp

/-- When the mapping blocks let control through, the parent's actions are the
verbose message and the mapping actions, none of which gives up the write
end, then the explicit release, then the wait. -/
theorem parent_ok_form (prog : Str) (st : Opts) (pid : Nat) (env : Env)
    (h : (mapSteps st pid env).2 = true) :
    ∃ A, parentAfterClone prog st pid env =
        A ++ Ev.closePipeWrite :: waitSteps prog st pid env ∧
      (∀ e ∈ A, closesWriteEnd e = false) ∧
      (∀ e ∈ (mapSteps st pid env).1, e ∈ A) := by
  refine ⟨(if st.verbose then
        [Ev.printf (prog ++ ": PID of child created by clone() is ".toList ++ fmtDec pid ++
          "\n".toList)]
      else []) ++ (mapSteps st pid env).1, ?_, ?_, ?_⟩
  · unfold parentAfterClone
    simp [h]
  · intro e he
    rcases List.mem_append.1 he with h1 | h1
    · exact (verbose_closes_false prog st pid e h1).1
    · exact closes_false_of_mapEv e (mapSteps_isMapEv st pid env e h1)
        ((mapSteps_ok st pid env h).1 e h1)
  · intro e he
    exact List.mem_append_right _ he

/-- When a mapping block ends the program, the parent's actions end with the
diagnostic and `exit(EXIT_FAILURE)`; before them nothing gives up the write
end, and there is neither an explicit release nor a `waitpid` at all. -/
theorem parent_fail_form (prog : Str) (st : Opts) (pid : Nat) (env : Env)
    (h : (mapSteps st pid env).2 = false) :
    ∃ A op f e, parentAfterClone prog st pid env =
        A ++ [Ev.eprintf (op ++ f ++ ": ".toList) e, Ev.exit 1] ∧
      (op = "ERROR: open ".toList ∨ op = "ERROR: write ".toList) ∧
      (f = uidMapPath pid ∨ f = gidMapPath pid) ∧
      (∀ x ∈ A, closesWriteEnd x = false) ∧
      Ev.closePipeWrite ∉ parentAfterClone prog st pid env ∧
      (∀ p o, Ev.waitpid p o ∉ parentAfterClone prog st pid env) := by
  obtain ⟨pre, op, f, e, hev, hop, hf, hpre⟩ := mapSteps_fail st pid env h
  have hform : parentAfterClone prog st pid env =
      (if st.verbose then
        [Ev.printf (prog ++ ": PID of child created by clone() is ".toList ++ fmtDec pid ++
          "\n".toList)]
      else []) ++ (mapSteps st pid env).1 := by
    unfold parentAfterClone
    simp [h]
  have hmap : ∀ x ∈ (mapSteps st pid env).1, isMapEv x = true := mapSteps_isMapEv st pid env
  refine ⟨(if st.verbose then
        [Ev.printf (prog ++ ": PID of child created by clone() is ".toList ++ fmtDec pid ++
          "\n".toList)]
      else []) ++ pre, op, f, e, ?_, hop, hf, ?_, ?_, ?_⟩
  · rw [hform, hev]
    simp
  · intro x hx
    rcases List.mem_append.1 hx with h1 | h1
    · exact (verbose_closes_false prog st pid x h1).1
    · apply closes_false_of_mapEv x _ (hpre x h1)
      apply hmap
      rw [hev]
      exact List.mem_append_left _ h1
  · rw [hform]
    intro hx
    rcases List.mem_append.1 hx with h1 | h1
    · exact (verbose_closes_false prog st pid _ h1).2.1 rfl
    · have := hmap _ h1
      simp [isMapEv] at this
  · intro p o
    rw [hform]
    intro hx
    rcases List.mem_append.1 hx with h1 | h1
    · exact (verbose_closes_false prog st pid _ h1).2.2 p o rfl
    · have := hmap _ h1
      simp [isMapEv] at this

/-- In the child's action list, `execvp` comes only after a `read` that returned 0. -/
theorem childFunc_read_before_exec (argv : List Str) (cenv : ChildEnv) :
    ∀ pre f a ok post, childFunc argv cenv = pre ++ Ev.execvp f a ok :: post →
      Ev.read 0 ∈ pre := by
  intro pre f a ok post heq
  unfold childFunc at heq
  by_cases h : cenv.readRet = 0
  · have hn : ¬ cenv.readRet ≠ 0 := by simpa using h
    rw [if_neg hn, h] at heq
    have heq' : [Ev.closePipeWrite, Ev.read 0, Ev.closePipeRead,
        Ev.printf ("About to exec ".toList ++ argv.headD "(null)".toList ++ "\n".toList)] ++
        (Ev.execvp argv.head? argv cenv.exec.isSome ::
          (match cenv.exec with
           | some st => [Ev.terminated st]
           | none => [Ev.err "execvp".toList, Ev.exit EXIT_FAILURE])) =
        pre ++ Ev.execvp f a ok :: post := by
      rw [← heq]
      rfl
    obtain ⟨c, hc⟩ := starts_with_of_first (p := fun x => ∃ f a ok, x = Ev.execvp f a ok)
      _ _ pre post (Ev.execvp f a ok) (by simp) ⟨f, a, ok, rfl⟩ heq'
    rw [hc]
    simp
  · rw [if_pos h] at heq
    have hm : Ev.execvp f a ok ∈ [Ev.closePipeWrite, Ev.read cenv.readRet] ++
        [Ev.eprintf "Failure in child: read from pipe returned != 0\n".toList none,
         Ev.exit EXIT_FAILURE] := by
      rw [heq]
      simp
    simp at hm

end UidMapping

/-! ## Ordering of the release, the mapping writes and `execvp` -/

namespace UidMapping

/-- The hypotheses of the invariant, for the two processes of `uid_mapping`: in
the parent's list nothing before the explicit release gives up the write end. -/
theorem parent_release_cut (prog : Str) (st : Opts) (pid : Nat) (env : Env) :
    ∀ pre post, parentAfterClone prog st pid env = pre ++ Ev.closePipeWrite :: post →
      (∀ e ∈ pre, closesWriteEnd e = false) ∧ (mapSteps st pid env).2 = true ∧
      (∀ e ∈ (mapSteps st pid env).1, e ∈ pre) := by
  intro pre post heq
  by_cases h : (mapSteps st pid env).2 = true
  · obtain ⟨A, hA, hcl, hsub⟩ := parent_ok_form prog st pid env h
    rw [hA] at heq
    have hnA : Ev.closePipeWrite ∉ A := by
      intro hm
      have := hcl _ hm
      simp [closesWriteEnd] at this
    obtain ⟨h1, _⟩ := split_unique_of_not_mem A _ pre post Ev.closePipeWrite hnA
      (waitSteps_no_release prog st pid env) heq
    rw [← h1]
    exact ⟨hcl, h, hsub⟩
  · have h' : (mapSteps st pid env).2 = false := by simpa using h
    obtain ⟨_, _, _, _, _, _, _, _, hno, _⟩ := parent_fail_form prog st pid env h'
    exfalso
    apply hno
    rw [heq]
    simp

/-- In the parent's list, the first action that gives up the write end is either
the explicit release or the `exit(EXIT_FAILURE)` of a failed mapping write. -/
theorem parent_first_close (prog : Str) (st : Opts) (pid : Nat) (env : Env) :
    ∀ pre e post, parentAfterClone prog st pid env = pre ++ e :: post →
      closesWriteEnd e = true → (∀ x ∈ pre, closesWriteEnd x = false) →
      (e = Ev.closePipeWrite ∨ (e = Ev.exit 1 ∧ (mapSteps st pid env).2 = false)) := by
  intro pre e post heq hce hpre
  by_cases h : (mapSteps st pid env).2 = true
  · obtain ⟨A, hA, hcl, _⟩ := parent_ok_form prog st pid env h
    rw [hA] at heq
    obtain ⟨_, h2, _⟩ := first_unique (p := fun x => closesWriteEnd x = true)
      A _ pre post Ev.closePipeWrite e
      (fun z hz => by simp [hcl z hz]) rfl (fun z hz => by simp [hpre z hz]) hce heq
    exact Or.inl h2.symm
  · have h' : (mapSteps st pid env).2 = false := by simpa using h
    obtain ⟨A, op, f, err, hA, _, _, hcl, _, _⟩ := parent_fail_form prog st pid env h'
    have hA' : parentAfterClone prog st pid env =
        (A ++ [Ev.eprintf (op ++ f ++ ": ".toList) err]) ++ Ev.exit 1 :: [] := by
      rw [hA]
      simp
    rw [hA'] at heq
    obtain ⟨_, h2, _⟩ := first_unique (p := fun x => closesWriteEnd x = true)
      _ _ pre post (Ev.exit 1) e
      (fun z hz => by
        rcases List.mem_append.1 hz with h1 | h1
        · simp [hcl z h1]
        · simp at h1
          simp [h1, closesWriteEnd]) rfl (fun z hz => by simp [hpre z hz]) hce heq
    exact Or.inr ⟨h2.symm, h'⟩

end UidMapping

namespace UidMapping

/-- Ordering facts shared by the statements about runs: the explicit release
follows the requested mapping writes, `execvp` does not precede the release,
and `execvp` follows the release or the parent's `exit(EXIT_FAILURE)`. -/
theorem run_order (prog : Str) (st : Opts) (pid : Nat)
    (env : Env) (cmd : List Str) (cenv : ChildEnv) (sched : List Proc) (s : Sys)
    (hrun : run sched (launch prog st pid env cmd cenv) = some s) :
    (∀ j : Nat, s.trace[j]? = some (Proc.parent, Ev.closePipeWrite) →
      ((st.uid_map.isSome ∨ st.map_zero = true) →
        ∃ (i : Nat) (buf : Str), i < j ∧ s.trace[i]? =
          some (Proc.parent, Ev.write (uidMapPath pid) buf (buf.length : Int))) ∧
      ((st.gid_map.isSome ∨ st.map_zero = true) →
        ∃ (i : Nat) (buf : Str), i < j ∧ s.trace[i]? =
          some (Proc.parent, Ev.write (gidMapPath pid) buf (buf.length : Int)))) ∧
    (∀ (i j : Nat) f a ok, s.trace[i]? = some (Proc.child, Ev.execvp f a ok) →
      s.trace[j]? = some (Proc.parent, Ev.closePipeWrite) → j < i) ∧
    (∀ (i : Nat) f a ok, s.trace[i]? = some (Proc.child, Ev.execvp f a ok) →
      ∃ j : Nat, j < i ∧
        (s.trace[j]? = some (Proc.parent, Ev.closePipeWrite) ∨
         (s.trace[j]? = some (Proc.parent, Ev.exit 1) ∧
           (mapSteps st pid env).2 = false))) ∧
    (∀ e, (Proc.parent, e) ∈ s.trace → e ∈ parentAfterClone prog st pid env) := by
  have hC := childFunc_read_before_exec cmd cenv
  have hP1 : ∀ pre post, parentAfterClone prog st pid env =
      pre ++ Ev.closePipeWrite :: post → ∀ e ∈ pre, closesWriteEnd e = false :=
    fun pre post h => (parent_release_cut prog st pid env pre post h).1
  have hRel := parent_first_close prog st pid env
  have hRel2 : ∀ e, (e = Ev.closePipeWrite ∨
      (e = Ev.exit 1 ∧ (mapSteps st pid env).2 = false)) → closesWriteEnd e = true := by
    rintro e (h | ⟨h, _⟩) <;> simp [h, closesWriteEnd]
  have hWu : (st.uid_map.isSome ∨ st.map_zero = true) → ∀ pre post,
      parentAfterClone prog st pid env = pre ++ Ev.closePipeWrite :: post →
      ∃ e ∈ pre, ∃ buf : Str, e = Ev.write (uidMapPath pid) buf (buf.length : Int) := by
    intro hreq pre post heq
    obtain ⟨_, hok, hsub⟩ := parent_release_cut prog st pid env pre post heq
    obtain ⟨m, _, hw⟩ := (mapSteps_ok st pid env hok).2.1 hreq
    exact ⟨_, hsub _ hw, payload m, rfl⟩
  have hWg : (st.gid_map.isSome ∨ st.map_zero = true) → ∀ pre post,
      parentAfterClone prog st pid env = pre ++ Ev.closePipeWrite :: post →
      ∃ e ∈ pre, ∃ buf : Str, e = Ev.write (gidMapPath pid) buf (buf.length : Int) := by
    intro hreq pre post heq
    obtain ⟨_, hok, hsub⟩ := parent_release_cut prog st pid env pre post heq
    obtain ⟨m, _, hw⟩ := (mapSteps_ok st pid env hok).2.2 hreq
    exact ⟨_, hsub _ hw, payload m, rfl⟩
  have hinvU := inv_run hC hP1 hWu hRel hRel2 sched _ s (inv_init _ _ _ _ _) hrun
  have hinvG := inv_run hC hP1 hWg hRel hRel2 sched _ s (inv_init _ _ _ _ _) hrun
  refine ⟨?_, ?_, ?_, ?_⟩
  · intro j hj
    constructor
    · intro hreq
      obtain ⟨i, a, hij, hia, e, hae, buf, he⟩ := hinvU.writes j _ hj ⟨hreq, rfl⟩
      exact ⟨i, buf, hij, by rw [hia, hae, he]⟩
    · intro hreq
      obtain ⟨i, a, hij, hia, e, hae, buf, he⟩ := hinvG.writes j _ hj ⟨hreq, rfl⟩
      exact ⟨i, buf, hij, by rw [hia, hae, he]⟩
  · intro i j f a ok hi hj
    exact hinvU.noLateRelease i j _ _ hi ⟨f, a, ok, rfl⟩ hj rfl
  · intro i f a ok hi
    obtain ⟨j, x, hji, hjx, e, hxe, hrel⟩ := hinvU.execAfter i _ hi ⟨f, a, ok, rfl⟩
    refine ⟨j, hji, ?_⟩
    rcases hrel with h | ⟨h, hm⟩
    · left
      rw [hjx, hxe, h]
    · right
      exact ⟨by rw [hjx, hxe, h], hm⟩
  · intro e he
    have hp := hinvU.projP
    have : e ∈ proj Proc.parent s.trace := (mem_proj _ _ _).2 he
    have hl : launch prog st pid env cmd cenv =
        initSys (parentAfterClone prog st pid env) (childFunc cmd cenv) := rfl
    rw [← hp]
    exact List.mem_append_left _ this

/-- C2: in every run of the two processes after `clone`, the parent's explicit
release `close(pipe_fd[1])` comes only after a complete write to `uid_map` (if
`-M` or `-z` was given) and a complete write to `gid_map` (if `-G` or `-z` was
given); the child's `execvp` never comes before that release; and an
`execvp` is always preceded by the release or, when a mapping write failed,
by the parent's `exit(EXIT_FAILURE)`. -/
theorem release_after_mappings_before_exec (prog : Str) (st : Opts) (pid : Nat)
    (env : Env) (cmd : List Str) (cenv : ChildEnv) (sched : List Proc) (s : Sys)
    (hrun : run sched (launch prog st pid env cmd cenv) = some s) :
    (∀ j : Nat, s.trace[j]? = some (Proc.parent, Ev.closePipeWrite) →
      ((st.uid_map.isSome ∨ st.map_zero = true) →
        ∃ (i : Nat) (buf : Str), i < j ∧ s.trace[i]? =
          some (Proc.parent, Ev.write (uidMapPath pid) buf (buf.length : Int))) ∧
      ((st.gid_map.isSome ∨ st.map_zero = true) →
        ∃ (i : Nat) (buf : Str), i < j ∧ s.trace[i]? =
          some (Proc.parent, Ev.write (gidMapPath pid) buf (buf.length : Int)))) ∧
    (∀ (i j : Nat) f a ok, s.trace[i]? = some (Proc.child, Ev.execvp f a ok) →
      s.trace[j]? = some (Proc.parent, Ev.closePipeWrite) → j < i) ∧
    (∀ (i : Nat) f a ok, s.trace[i]? = some (Proc.child, Ev.execvp f a ok) →
      ∃ j : Nat, j < i ∧
        (s.trace[j]? = some (Proc.parent, Ev.closePipeWrite) ∨
         (s.trace[j]? = some (Proc.parent, Ev.exit 1) ∧
           (mapSteps st pid env).2 = false))) :=
  have h := run_order prog st pid env cmd cenv sched s hrun
  ⟨h.1, h.2.1, h.2.2.1⟩

theorem release_after_mappings_before_exec_witness :
    run schedOk (launch "uid_mapping".toList optsZero 4242 envOk ["sh".toList]
      ⟨0, some (WStatus.exited 0)⟩) = some finalOk ∧
    finalOk.trace.length = 18 ∧
    (∀ (i j : Nat) f a ok, finalOk.trace[i]? = some (Proc.child, Ev.execvp f a ok) →
      finalOk.trace[j]? = some (Proc.parent, Ev.closePipeWrite) → j < i) :=
  ⟨rfl, by decide,
   (release_after_mappings_before_exec "uid_mapping".toList optsZero 4242 envOk
      ["sh".toList] ⟨0, some (WStatus.exited 0)⟩ schedOk finalOk rfl).2.1⟩

end UidMapping

/-! ## The setgroups step, `-z`, and the wait -/

namespace UidMapping

theorem setgroups_write_mem (pid : Nat) (str : Str) (o : OpenRes) (r : Int) (p b : Str)
    (r' : Int) (h : Ev.write p b r' ∈ proc_setgroups_write pid str o r) :
    p = setgroupsPath pid ∧ b = str ∧ r' = r := by
  unfold proc_setgroups_write at h
  unfold setgroupsPath
  cases o with
  | fail e =>
    simp only at h
    split at h <;> simp at h
  | ok =>
    simp only at h
    split at h
    · simp at h
      exact h
    · simp at h
      exact h

/-- C9: for a caller with real UID `u` and real GID `g` (32-bit identifiers) and an
option state with the `CLONE_NEWUSER` bit, `main` with `-z` performs exactly
the actions of `main` with `-M "0 u 1" -G "0 g 1"`.  With `-z` the only
`write` on the child's `uid_map` carries the text `0 u 1` and the only
`write` on its `gid_map` carries the text `0 g 1` (the shared buffer is
refilled in between); both writes happen whenever the respective open
succeeds, and when every call succeeds the parent's actions are, in order,
the write of `0 u 1` to `uid_map`, the setgroups step, and the write of
`0 g 1` to `gid_map`. -/
theorem map_zero_equiv (prog : Str) (st : Opts) (cmd : List Str) (env : Env)
    (hU : st.flags &&& CLONE_NEWUSER ≠ 0) (hu : env.uid < 2 ^ 32)
    (hg : env.gid < 2 ^ 32) :
    afterParse prog (withZero st) cmd env =
      afterParse prog (withMaps st (zeroMapText env.uid) (zeroMapText env.gid)) cmd env ∧
    invalidOpts (withZero st) = false ∧
    (∀ pid, uidStep (withZero st) pid env =
        update_map (zeroMapText env.uid) (uidMapPath pid) env.uidOpen env.uidWrite) ∧
    (∀ pid, gidStep (withZero st) pid env =
        (proc_setgroups_write pid "deny".toList env.sgOpen env.sgWrite ++
          (update_map (zeroMapText env.gid) (gidMapPath pid) env.gidOpen env.gidWrite).1,
         (update_map (zeroMapText env.gid) (gidMapPath pid) env.gidOpen env.gidWrite).2)) ∧
    payload (zeroMapText env.uid) = zeroMapText env.uid ∧
    payload (zeroMapText env.gid) = zeroMapText env.gid ∧
    (∀ pid, env.uidOpen = OpenRes.ok →
      Ev.write (uidMapPath pid) (zeroMapText env.uid) env.uidWrite ∈
        (uidStep (withZero st) pid env).1) ∧
    (∀ pid p b r, Ev.write p b r ∈ (uidStep (withZero st) pid env).1 →
      p = uidMapPath pid ∧ b = zeroMapText env.uid ∧ r = env.uidWrite) ∧
    (∀ pid, env.gidOpen = OpenRes.ok →
      Ev.write (gidMapPath pid) (zeroMapText env.gid) env.gidWrite ∈
        (gidStep (withZero st) pid env).1) ∧
    (∀ pid p b r, Ev.write p b r ∈ (gidStep (withZero st) pid env).1 →
      (p = setgroupsPath pid ∧ b = "deny".toList ∧ r = env.sgWrite) ∨
      (p = gidMapPath pid ∧ b = zeroMapText env.gid ∧ r = env.gidWrite)) ∧
    (∀ pid, env.pipeOk = true → env.cloneRet = some pid → env.uidOpen = OpenRes.ok →
      env.uidWrite = ((zeroMapText env.uid).length : Int) → env.gidOpen = OpenRes.ok →
      ∃ rest, afterParse prog (withZero st) cmd env =
        [Ev.pipe true, Ev.clone (st.flags ||| SIGCHLD) cmd (some pid)] ++
        (if st.verbose then
          [Ev.printf (prog ++ ": PID of child created by clone() is ".toList ++ fmtDec pid ++
          "\n".toList)]
         else []) ++
        [Ev.open (uidMapPath pid) OpenRes.ok,
         Ev.write (uidMapPath pid) (zeroMapText env.uid)
           ((zeroMapText env.uid).length : Int),
         Ev.close (uidMapPath pid)] ++
        proc_setgroups_write pid "deny".toList env.sgOpen env.sgWrite ++
        Ev.open (gidMapPath pid) OpenRes.ok ::
          Ev.write (gidMapPath pid) (zeroMapText env.gid) env.gidWrite :: rest) := by
  have hflag : (st.flags &&& CLONE_NEWUSER == 0) = false := by simpa using hU
  have huid : ∀ pid, uidStep (withZero st) pid env =
        update_map (zeroMapText env.uid) (uidMapPath pid) env.uidOpen env.uidWrite := by
    intro pid
    simp [withZero, uidStep, uidMapArg, snprintf_zeroMapText env.uid hu]
  have hgid : ∀ pid, gidStep (withZero st) pid env =
        (proc_setgroups_write pid "deny".toList env.sgOpen env.sgWrite ++
          (update_map (zeroMapText env.gid) (gidMapPath pid) env.gidOpen env.gidWrite).1,
         (update_map (zeroMapText env.gid) (gidMapPath pid) env.gidOpen env.gidWrite).2) := by
    intro pid
    simp [withZero, gidStep, gidMapArg, snprintf_zeroMapText env.gid hg]
  have huid' : ∀ pid,
      uidStep (withMaps st (zeroMapText env.uid) (zeroMapText env.gid)) pid env =
        update_map (zeroMapText env.uid) (uidMapPath pid) env.uidOpen env.uidWrite := by
    intro pid
    simp [withMaps, uidStep, uidMapArg]
  have hgid' : ∀ pid,
      gidStep (withMaps st (zeroMapText env.uid) (zeroMapText env.gid)) pid env =
        (proc_setgroups_write pid "deny".toList env.sgOpen env.sgWrite ++
          (update_map (zeroMapText env.gid) (gidMapPath pid) env.gidOpen env.gidWrite).1,
         (update_map (zeroMapText env.gid) (gidMapPath pid) env.gidOpen env.gidWrite).2) := by
    intro pid
    simp [withMaps, gidStep, gidMapArg]
  have h1 : invalidOpts (withZero st) = false := by
    simp [withZero, invalidOpts, hflag]
  have h2 : invalidOpts (withMaps st (zeroMapText env.uid) (zeroMapText env.gid)) = false := by
    simp [withMaps, invalidOpts, hflag]
  have hpu := payload_zeroMapText env.uid
  have hpg := payload_zeroMapText env.gid
  refine ⟨?_, h1, huid, hgid, hpu, hpg, ?_, ?_, ?_, ?_, ?_⟩
  · unfold afterParse
    rw [h1, h2]
    simp only [Bool.false_eq_true, if_false]
    split
    · rfl
    · cases env.cloneRet with
      | none => rfl
      | some pid =>
        simp only
        have hp : parentAfterClone prog (withZero st) pid env =
            parentAfterClone prog (withMaps st (zeroMapText env.uid) (zeroMapText env.gid))
              pid env := by
          unfold parentAfterClone mapSteps waitSteps
          rw [huid, hgid, huid', hgid']
          rfl
        rw [hp]
        rfl
  · intro pid hok
    rw [huid, hok]
    obtain ⟨rest, hrest⟩ := update_map_open_ok (zeroMapText env.uid) (uidMapPath pid)
      env.uidWrite
    rw [hrest, hpu]
    simp
  · intro pid p b r hm
    rw [huid] at hm
    have := update_map_write_mem _ _ _ _ _ _ _ hm
    rw [hpu] at this
    exact this
  · intro pid hok
    rw [hgid, hok]
    obtain ⟨rest, hrest⟩ := update_map_open_ok (zeroMapText env.gid) (gidMapPath pid)
      env.gidWrite
    simp only
    rw [hrest, hpg]
    simp
  · intro pid p b r hm
    rw [hgid] at hm
    rcases List.mem_append.1 hm with h | h
    · exact Or.inl (setgroups_write_mem _ _ _ _ _ _ _ h)
    · have := update_map_write_mem _ _ _ _ _ _ _ h
      rw [hpg] at this
      exact Or.inr this
  · intro pid hpipe hclone huo huw hgo
    obtain ⟨restg, hrestg⟩ := update_map_open_ok (zeroMapText env.gid) (gidMapPath pid)
      env.gidWrite
    have hupd : update_map (zeroMapText env.uid) (uidMapPath pid) env.uidOpen env.uidWrite =
        ([Ev.open (uidMapPath pid) OpenRes.ok,
          Ev.write (uidMapPath pid) (zeroMapText env.uid)
            ((zeroMapText env.uid).length : Int),
          Ev.close (uidMapPath pid)], true) := by
      rw [huo, huw]
      unfold update_map
      simp [hpu]
    refine ⟨restg ++
      (if (update_map (zeroMapText env.gid) (gidMapPath pid) OpenRes.ok env.gidWrite).2 then
        Ev.closePipeWrite :: waitSteps prog (withZero st) pid env else []), ?_⟩
    unfold afterParse
    rw [h1]
    simp only [Bool.false_eq_true, if_false, hpipe, hclone, Bool.not_true]
    unfold parentAfterClone mapSteps
    rw [huid, hgid, hupd, hgo, hrestg]
    by_cases hg2 : (update_map (zeroMapText env.gid) (gidMapPath pid) OpenRes.ok
        env.gidWrite).2 = true
    · simp [hg2, withZero, hpg]
    · simp [hg2, withZero, hpg]

theorem map_zero_equiv_witness :
    afterParse "uid_mapping".toList (withZero optsZero) ["sh".toList] envOk =
      afterParse "uid_mapping".toList
        (withMaps optsZero (zeroMapText 1000) (zeroMapText 1000)) ["sh".toList] envOk ∧
    Ev.write (uidMapPath 4242) (zeroMapText 1000) 8 ∈
      (uidStep (withZero optsZero) 4242 envOk).1 ∧
    Ev.write (gidMapPath 4242) (zeroMapText 1000) 8 ∈
      (gidStep (withZero optsZero) 4242 envOk).1 ∧
    payload (zeroMapText 1000) = "0 1000 1".toList ∧
    main argvZero envOk = main argvMaps envOk ∧
    main argvZero envOk =
      [Ev.pipe true, Ev.clone (CLONE_NEWUSER ||| SIGCHLD) ["sh".toList] (some 4242),
       Ev.open "/proc/4242/uid_map".toList OpenRes.ok,
       Ev.write "/proc/4242/uid_map".toList "0 1000 1".toList 8,
       Ev.close "/proc/4242/uid_map".toList,
       Ev.open "/proc/4242/setgroups".toList OpenRes.ok,
       Ev.write "/proc/4242/setgroups".toList "deny".toList 4,
       Ev.close "/proc/4242/setgroups".toList,
       Ev.open "/proc/4242/gid_map".toList OpenRes.ok,
       Ev.write "/proc/4242/gid_map".toList "0 1000 1".toList 8,
       Ev.close "/proc/4242/gid_map".toList,
       Ev.closePipeWrite, Ev.waitpid 4242 true, Ev.exit 0] :=
  have h := map_zero_equiv "uid_mapping".toList optsZero ["sh".toList] envOk (by decide)
      (by decide) (by decide)
  ⟨h.1, h.2.2.2.2.2.2.1 4242 rfl, h.2.2.2.2.2.2.2.2.1 4242 rfl, by decide, by decide,
   by decide⟩

end UidMapping

/-! ## Failure of a mapping write, the wait, and a missing command -/

namespace UidMapping

theorem exitStatus_snoc (evs : List Ev) (n : Nat) : exitStatus (evs ++ [Ev.exit n]) = some n := by
  simp [exitStatus]

/-- The case analysis behind `(mapSteps st pid env).2 = false`: `update_map` returns
exactly when the open succeeded and `write` returned the full length. -/
theorem update_map_returns_iff (m f : Str) (o : OpenRes) (r : Int) :
    (update_map m f o r).2 = true ↔ (o = OpenRes.ok ∧ r = ((payload m).length : Int)) := by
  constructor
  · intro h
    obtain ⟨h1, h2, _⟩ := update_map_ok m f o r h
    exact ⟨h1, h2⟩
  · rintro ⟨h1, h2⟩
    unfold update_map
    rw [h1]
    simp [h2]

theorem isExit_false_of_closes_false (e : Ev) (h : closesWriteEnd e = false) :
    isExit e = false := by
  cases e <;> simp_all [isExit, closesWriteEnd]

/-- The parent's actions when a mapping block ends the program: everything up to
the failing call of `update_map`, then the actions of that call. -/
theorem parent_fail_call (prog : Str) (st : Opts) (pid : Nat) (env : Env)
    (hfail : (mapSteps st pid env).2 = false) :
    ∃ pre m f o r,
      parentAfterClone prog st pid env = pre ++ (update_map m f o r).1 ∧
      (update_map m f o r).2 = false ∧
      (∀ x ∈ pre, isExit x = false) ∧
      ((f = uidMapPath pid ∧ o = env.uidOpen ∧ r = env.uidWrite ∧
          uidMapArg st env = some m ∧ (st.uid_map.isSome ∨ st.map_zero = true)) ∨
       (f = gidMapPath pid ∧ o = env.gidOpen ∧ r = env.gidWrite ∧
          gidMapArg st env = some m ∧ (st.gid_map.isSome ∨ st.map_zero = true) ∧
          (uidStep st pid env).2 = true)) := by
  have hform : parentAfterClone prog st pid env =
      (if st.verbose then
        [Ev.printf (prog ++ ": PID of child created by clone() is ".toList ++ fmtDec pid ++
          "\n".toList)]
      else []) ++ (mapSteps st pid env).1 := by
    unfold parentAfterClone
    simp [hfail]
  have hV := verbose_closes_false prog st pid
  by_cases hu : (uidStep st pid env).2 = true
  · rw [mapSteps_of_uid_ok st pid env hu] at hfail hform
    simp only at hfail hform
    rcases gidStep_cases st pid env with ⟨h0, _, _⟩ | ⟨m, hm, hreq, h0⟩
    · rw [h0] at hfail
      exact Bool.noConfusion hfail
    · rw [h0] at hfail hform
      simp only at hfail hform
      refine ⟨(if st.verbose then
          [Ev.printf (prog ++ ": PID of child created by clone() is ".toList ++ fmtDec pid ++
          "\n".toList)]
        else []) ++ (uidStep st pid env).1 ++
          proc_setgroups_write pid "deny".toList env.sgOpen env.sgWrite,
        m, gidMapPath pid, env.gidOpen, env.gidWrite, ?_, hfail, ?_,
        Or.inr ⟨rfl, rfl, rfl, hm, hreq, hu⟩⟩
      · rw [hform]
        simp
      · intro x hx
        rcases List.mem_append.1 hx with h1 | h1
        · rcases List.mem_append.1 h1 with h2 | h2
          · exact isExit_false_of_closes_false x (hV x h2).1
          · exact (uidStep_ok st pid env hu).1 x h2
        · exact (setgroups_isMapEv _ _ _ _ x h1).2
  · have hu' : (uidStep st pid env).2 = false := by simpa using hu
    rw [mapSteps_of_uid_fail st pid env hu'] at hform
    rcases uidStep_cases st pid env with ⟨h0, _, _⟩ | ⟨m, hm, hreq, h0⟩
    · rw [h0] at hu'
      exact Bool.noConfusion hu'
    · rw [h0] at hu' hform
      refine ⟨_, m, uidMapPath pid, env.uidOpen, env.uidWrite, hform, hu', ?_,
        Or.inl ⟨rfl, rfl, rfl, hm, hreq⟩⟩
      intro x hx
      exact isExit_false_of_closes_false x (hV x hx).1

/-- C5 (amended): when a call of `update_map` fails to open, or to fully write, the
child's `uid_map` or `gid_map`, the parent's actions end with the actions of
that failing call: the failed open, or the open and the short write, then a
diagnostic whose text contains the path given to that call, then `exit(1)`,
with no `exit` before.  The parent performs neither `waitpid` nor the
explicit release of the pipe, and in every run the child's `execvp`, if it
happens, comes after the parent's `exit(1)`. -/
theorem map_failure_exit (prog : Str) (st : Opts) (pid : Nat) (env : Env)
    (cmd : List Str) (cenv : ChildEnv) (hfail : (mapSteps st pid env).2 = false) :
    (∃ pre m f o r,
      parentAfterClone prog st pid env = pre ++ (update_map m f o r).1 ∧
      (∀ x ∈ pre, isExit x = false) ∧
      ((f = uidMapPath pid ∧ o = env.uidOpen ∧ r = env.uidWrite ∧
          uidMapArg st env = some m ∧ (st.uid_map.isSome ∨ st.map_zero = true)) ∨
       (f = gidMapPath pid ∧ o = env.gidOpen ∧ r = env.gidWrite ∧
          gidMapArg st env = some m ∧ (st.gid_map.isSome ∨ st.map_zero = true) ∧
          (uidStep st pid env).2 = true)) ∧
      ((∃ errno, o = OpenRes.fail errno ∧
          (update_map m f o r).1 =
            [Ev.open f (OpenRes.fail errno),
             Ev.eprintf ("ERROR: open ".toList ++ f ++ ": ".toList) (some errno),
             Ev.exit 1]) ∨
       (o = OpenRes.ok ∧ r ≠ ((payload m).length : Int) ∧
          (update_map m f o r).1 =
            [Ev.open f OpenRes.ok, Ev.write f (payload m) r,
             Ev.eprintf ("ERROR: write ".toList ++ f ++ ": ".toList) none,
             Ev.exit 1]))) ∧
    exitStatus (parentAfterClone prog st pid env) = some 1 ∧
    Ev.closePipeWrite ∉ parentAfterClone prog st pid env ∧
    (∀ p o, Ev.waitpid p o ∉ parentAfterClone prog st pid env) ∧
    (∀ sched s, run sched (launch prog st pid env cmd cenv) = some s →
      (∀ p o, (Proc.parent, Ev.waitpid p o) ∉ s.trace) ∧
      (∀ (i : Nat) f a ok, s.trace[i]? = some (Proc.child, Ev.execvp f a ok) →
        ∃ j : Nat, j < i ∧ s.trace[j]? = some (Proc.parent, Ev.exit 1))) := by
  obtain ⟨A, op, f, e, hA, hop, hf, _, hno, hnw⟩ := parent_fail_form prog st pid env hfail
  obtain ⟨pre, m, f', o, r, hP, hfl, hpre, htie⟩ := parent_fail_call prog st pid env hfail
  refine ⟨⟨pre, m, f', o, r, hP, hpre, htie, update_map_fail_form m f' o r hfl⟩, ?_, hno,
    hnw, ?_⟩
  · rw [hA]
    have : A ++ [Ev.eprintf (op ++ f ++ ": ".toList) e, Ev.exit 1] =
        (A ++ [Ev.eprintf (op ++ f ++ ": ".toList) e]) ++ [Ev.exit 1] := by simp
    rw [this]
    exact exitStatus_snoc _ _
  · intro sched s hrun
    obtain ⟨_, _, h3, h4⟩ := run_order prog st pid env cmd cenv sched s hrun
    constructor
    · intro p o hm
      exact hnw p o (h4 _ hm)
    · intro i f a ok hi
      obtain ⟨j, hji, hj⟩ := h3 i f a ok hi
      rcases hj with hj | ⟨hj, _⟩
      · exfalso
        apply hno
        apply h4
        exact List.mem_iff_getElem?.2 ⟨j, hj⟩
      · exact ⟨j, hji, hj⟩

theorem map_failure_exit_witness :
    parentAfterClone "uid_mapping".toList optsZero 4242 envDenied =
      [Ev.open "/proc/4242/uid_map".toList (OpenRes.fail 13),
       Ev.eprintf "ERROR: open /proc/4242/uid_map: ".toList (some 13),
       Ev.exit 1] ∧
    exitStatus (parentAfterClone "uid_mapping".toList optsZero 4242 envDenied) = some 1 ∧
    Ev.closePipeWrite ∉ parentAfterClone "uid_mapping".toList optsZero 4242 envDenied ∧
    (∀ p o, (Proc.parent, Ev.waitpid p o) ∉ finalDenied.trace) :=
  have h := map_failure_exit "uid_mapping".toList optsZero 4242 envDenied ["sh".toList]
    ⟨0, some (WStatus.exited 0)⟩ (by decide)
  ⟨by decide, h.2.1, h.2.2.1, (h.2.2.2.2 schedDenied finalDenied rfl).1⟩

/-- C5 (as stated) fails: in `uid_mapping -U -z sh`, when opening the child's
`uid_map` fails, the parent prints the diagnostic and exits with status 1
without any `waitpid`, and there is a run in which the child then reads end
of file and reaches `execvp`. -/
theorem map_failure_counterexample :
    main argvZero envDenied =
      [Ev.pipe true, Ev.clone (CLONE_NEWUSER ||| SIGCHLD) ["sh".toList] (some 4242),
       Ev.open "/proc/4242/uid_map".toList (OpenRes.fail 13),
       Ev.eprintf "ERROR: open /proc/4242/uid_map: ".toList (some 13),
       Ev.exit 1] ∧
    run schedDenied (launch "uid_mapping".toList optsZero 4242 envDenied ["sh".toList]
      ⟨0, some (WStatus.exited 0)⟩) = some finalDenied ∧
    finalDenied.parent = [] ∧
    finalDenied.trace.all (fun x => !isWait x.2) = true ∧
    (Proc.child, Ev.execvp (some "sh".toList) ["sh".toList] true) ∈ finalDenied.trace := by
  refine ⟨by decide, rfl, by decide, by decide, by decide⟩

theorem waitpid_mem_parent (prog : Str) (st : Opts) (pid : Nat) (env : Env) (p : Nat)
    (o : Bool) (h : Ev.waitpid p o ∈ parentAfterClone prog st pid env) :
    (mapSteps st pid env).2 = true ∧ o = env.waitOk := by
  by_cases hm : (mapSteps st pid env).2 = true
  · refine ⟨hm, ?_⟩
    unfold parentAfterClone at h
    simp only [hm, if_true] at h
    rcases List.mem_append.1 h with h1 | h1
    · exact absurd rfl ((verbose_closes_false prog st pid _ h1).2.2 p o)
    · rcases List.mem_append.1 h1 with h2 | h2
      · have := mapSteps_isMapEv st pid env _ h2
        simp [isMapEv] at this
      · unfold waitSteps at h2
        by_cases hw : env.waitOk = true
        · rw [if_pos hw] at h2
          by_cases hv : st.verbose = true
          · simp [hv] at h2
            rw [hw]
            exact h2.2
          · simp [hv] at h2
            rw [hw]
            exact h2.2
        · rw [if_neg hw] at h2
          simp at h2
          have hw' : env.waitOk = false := by simpa using hw
          rw [hw']
          exact h2.2
  · have hm' : (mapSteps st pid env).2 = false := by simpa using hm
    obtain ⟨_, _, _, _, _, _, _, _, _, hnw⟩ := parent_fail_form prog st pid env hm'
    exact absurd h (hnw p o)

theorem waitSteps_form (prog : Str) (st : Opts) (pid : Nat) (env : Env) :
    ∃ W, waitSteps prog st pid env =
      W ++ [Ev.exit (if env.waitOk then EXIT_SUCCESS else EXIT_FAILURE)] := by
  unfold waitSteps
  by_cases hw : env.waitOk = true
  · rw [if_pos hw, if_pos hw]
    exact ⟨_, rfl⟩
  · rw [if_neg hw, if_neg hw]
    exact ⟨[Ev.waitpid pid false, Ev.err "waitpid".toList], rfl⟩

theorem exitStatus_parent_ok (prog : Str) (st : Opts) (pid : Nat) (env : Env)
    (pre : List Ev) (hm : (mapSteps st pid env).2 = true) :
    exitStatus (pre ++ parentAfterClone prog st pid env) =
      some (if env.waitOk then EXIT_SUCCESS else EXIT_FAILURE) := by
  obtain ⟨A, hA, _, _⟩ := parent_ok_form prog st pid env hm
  obtain ⟨W, hW⟩ := waitSteps_form prog st pid env
  rw [hA, hW]
  have : pre ++ (A ++ Ev.closePipeWrite ::
      (W ++ [Ev.exit (if env.waitOk then EXIT_SUCCESS else EXIT_FAILURE)])) =
      (pre ++ A ++ Ev.closePipeWrite :: W) ++
        [Ev.exit (if env.waitOk then EXIT_SUCCESS else EXIT_FAILURE)] := by
    simp
  rw [this]
  exact exitStatus_snoc _ _

/-- C6 (amended): `main` never looks at how the child ended: replacing the child's
termination status in the environment changes neither the actions nor the
output of `main`, and whenever `waitpid` is reached the exit status is 0 if it
returned the child's PID and 1 if it returned `-1`. -/
theorem wait_ignores_child_status (argv : List Str) (env : Env) (c : WStatus) :
    main argv { env with child := c } = main argv env ∧
    (∀ p o, Ev.waitpid p o ∈ main argv env →
      exitStatus (main argv env) = some (if o then EXIT_SUCCESS else EXIT_FAILURE)) := by
  constructor
  · rfl
  · intro p o h
    unfold main at h ⊢
    simp only at h ⊢
    split at h
    · simp at h
    · rename_i st hst
      unfold afterParse at h ⊢
      split at h
      · simp at h
      · rename_i hv
        rw [if_neg hv]
        split at h
        · simp at h
        · rename_i hp
          rw [if_neg hp]
          cases hc : env.cloneRet with
          | none =>
            rw [hc] at h
            simp at h
          | some pid =>
            rw [hc] at h
            simp only at h ⊢
            have h' : Ev.waitpid p o ∈ parentAfterClone (argv.headD []) st pid env := by
              rcases List.mem_append.1 h with h1 | h1
              · simp at h1
              · exact h1
            obtain ⟨hm, ho⟩ := waitpid_mem_parent _ _ _ _ _ _ h'
            rw [exitStatus_parent_ok _ _ _ _ _ hm, ho]

theorem wait_ignores_child_status_witness :
    exitStatus (main argvZero envOk) = some (if true then EXIT_SUCCESS else EXIT_FAILURE) :=
  (wait_ignores_child_status argvZero envOk (WStatus.signaled 9)).2 4242 true (by decide)

/-- C6 (as stated) fails: `uid_mapping -U -z sh` performs the same actions and exits
with status 0 whether the child exited with 0, exited with 3, or was killed
by signal 9. -/
theorem child_status_counterexample :
    main argvZero { envOk with child := WStatus.signaled 9 } =
      main argvZero { envOk with child := WStatus.exited 0 } ∧
    main argvZero { envOk with child := WStatus.exited 3 } =
      main argvZero { envOk with child := WStatus.exited 0 } ∧
    exitStatus (main argvZero { envOk with child := WStatus.signaled 9 }) = some 0 ∧
    exitStatus (main argvZero { envOk with child := WStatus.exited 3 }) = some 0 := by
  refine ⟨rfl, rfl, by decide, by decide⟩

/-- C4 at `uid_mapping -U`: every option is recognised, validation passes and
`optind` equals `argc`, yet `main` creates the pipe and the child, releases
it, waits and exits with status 0; the child calls `execvp` with a NULL file
name and an empty argument vector. -/
theorem missing_command_spawns_child :
    (getopt "+imnpuUM:G:zv".toList argvNoCmd).optind = argvNoCmd.length ∧
    main argvNoCmd envOk =
      [Ev.pipe true, Ev.clone (CLONE_NEWUSER ||| SIGCHLD) [] (some 4242),
       Ev.closePipeWrite, Ev.waitpid 4242 true, Ev.exit 0] ∧
    childFunc [] ⟨0, none⟩ =
      [Ev.closePipeWrite, Ev.read 0, Ev.closePipeRead,
       Ev.printf "About to exec (null)\n".toList, Ev.execvp none [] false,
       Ev.err "execvp".toList, Ev.exit 1] := by
  refine ⟨by decide, by decide, by decide⟩

end UidMapping

/-! ## The option loop and the `CLONE_NEWUSER` bit -/

namespace UidMapping

theorem or_and_newuser (f k : Nat) (hk : k &&& CLONE_NEWUSER = 0) :
    (f ||| k) &&& CLONE_NEWUSER = f &&& CLONE_NEWUSER := by
  rw [Nat.and_distrib_right, hk, Nat.or_zero]

theorem or_newuser_ne_zero (f : Nat) : (f ||| CLONE_NEWUSER) &&& CLONE_NEWUSER ≠ 0 := by
  intro h
  have h1 : ((f ||| CLONE_NEWUSER) &&& CLONE_NEWUSER).testBit 28 = true := by
    rw [Nat.testBit_and, Nat.testBit_or]
    have : CLONE_NEWUSER.testBit 28 = true := by decide
    simp [this]
  rw [h] at h1
  simp at h1

theorem newuser_iff_of_or (f k : Nat) (hk : k &&& CLONE_NEWUSER = 0) (opt : Char)
    (ho : opt ≠ 'U') :
    (f ||| k) &&& CLONE_NEWUSER ≠ 0 ↔ (f &&& CLONE_NEWUSER ≠ 0 ∨ opt = 'U') := by
  rw [or_and_newuser f k hk]
  constructor
  · exact Or.inl
  · rintro (h | h)
    · exact h
    · exact absurd h ho

theorem newuser_iff_of_same (f : Nat) (opt : Char) (ho : opt ≠ 'U') :
    f &&& CLONE_NEWUSER ≠ 0 ↔ (f &&& CLONE_NEWUSER ≠ 0 ∨ opt = 'U') := by
  constructor
  · exact Or.inl
  · rintro (h | h)
    · exact h
    · exact absurd h ho

/-- One pass through the `switch` sets the `CLONE_NEWUSER` bit exactly for `-U`. -/
theorem optSwitch_newuser (st : Opts) (opt : Char) (a : Option Str) (st' : Opts)
    (h : optSwitch st opt a = some st') :
    st'.flags &&& CLONE_NEWUSER ≠ 0 ↔ (st.flags &&& CLONE_NEWUSER ≠ 0 ∨ opt = 'U') := by
  unfold optSwitch at h
  by_cases c1 : opt = 'i'
  · rw [if_pos c1] at h
    injection h with h
    rw [← h]
    exact newuser_iff_of_or _ _ (by decide) opt (by rw [c1]; decide)
  rw [if_neg c1] at h
  by_cases c2 : opt = 'm'
  · rw [if_pos c2] at h
    injection h with h
    rw [← h]
    exact newuser_iff_of_or _ _ (by decide) opt (by rw [c2]; decide)
  rw [if_neg c2] at h
  by_cases c3 : opt = 'n'
  · rw [if_pos c3] at h
    injection h with h
    rw [← h]
    exact newuser_iff_of_or _ _ (by decide) opt (by rw [c3]; decide)
  rw [if_neg c3] at h
  by_cases c4 : opt = 'p'
  · rw [if_pos c4] at h
    injection h with h
    rw [← h]
    exact newuser_iff_of_or _ _ (by decide) opt (by rw [c4]; decide)
  rw [if_neg c4] at h
  by_cases c5 : opt = 'u'
  · rw [if_pos c5] at h
    injection h with h
    rw [← h]
    exact newuser_iff_of_or _ _ (by decide) opt (by rw [c5]; decide)
  rw [if_neg c5] at h
  by_cases c6 : opt = 'v'
  · rw [if_pos c6] at h
    injection h with h
    rw [← h]
    exact newuser_iff_of_same _ opt (by rw [c6]; decide)
  rw [if_neg c6] at h
  by_cases c7 : opt = 'z'
  · rw [if_pos c7] at h
    injection h with h
    rw [← h]
    exact newuser_iff_of_same _ opt (by rw [c7]; decide)
  rw [if_neg c7] at h
  by_cases c8 : opt = 'M'
  · rw [if_pos c8] at h
    injection h with h
    rw [← h]
    exact newuser_iff_of_same _ opt (by rw [c8]; decide)
  rw [if_neg c8] at h
  by_cases c9 : opt = 'G'
  · rw [if_pos c9] at h
    injection h with h
    rw [← h]
    exact newuser_iff_of_same _ opt (by rw [c9]; decide)
  rw [if_neg c9] at h
  by_cases c10 : opt = 'U'
  · rw [if_pos c10] at h
    injection h with h
    rw [← h]
    constructor
    · intro _
      exact Or.inr c10
    · intro _
      exact or_newuser_ne_zero _
  · rw [if_neg c10] at h
    exact Option.noConfusion h

/-- After the option loop the `CLONE_NEWUSER` bit is set exactly when `-U` was among
the options (or the bit was set before the loop). -/
theorem parseLoop_newuser : ∀ (rets : List (Char × Option Str)) (st st' : Opts),
    parseLoop rets st = some st' →
    (st'.flags &&& CLONE_NEWUSER ≠ 0 ↔
      (st.flags &&& CLONE_NEWUSER ≠ 0 ∨ ∃ a, ('U', a) ∈ rets)) := by
  intro rets
  induction rets with
  | nil =>
    intro st st' h
    simp [parseLoop] at h
    rw [h]
    simp
  | cons r rs ih =>
    intro st st' h
    obtain ⟨opt, a⟩ := r
    simp only [parseLoop] at h
    split at h
    · exact Option.noConfusion h
    · rename_i st1 hst1
      rw [ih st1 st' h, optSwitch_newuser st opt a st1 hst1]
      constructor
      · rintro (( h0 | h0) | ⟨b, hb⟩)
        · exact Or.inl h0
        · exact Or.inr ⟨a, by simp [h0]⟩
        · exact Or.inr ⟨b, List.mem_cons_of_mem _ hb⟩
      · rintro (h0 | ⟨b, hb⟩)
        · exact Or.inl (Or.inl h0)
        · rcases List.mem_cons.1 hb with h1 | h1
          · left
            right
            simp at h1
            exact h1.1.symm
          · exact Or.inr ⟨b, h1⟩

end UidMapping

/-! ## `unshare_demo`: the program handed to `execvp` -/

namespace UnshareDemo

open UidMapping

/-- C10 at `unshare_demo -i -m sh`: `getopt` leaves `optind = 3` and `argv[optind]` is
`sh`, but `main` calls `execvp(argv[2], &argv[2])`, that is, it executes `-m`
with the argument vector `-m sh`. -/
theorem execvp_fixed_index :
    (getopt "imnpuU".toList argvTwoOpts).optind = 3 ∧
    (getopt "imnpuU".toList argvTwoOpts).argv.get? 3 = some "sh".toList ∧
    main argvTwoOpts ⟨true, some (WStatus.exited 0)⟩ =
      [Ev.unshare (CLONE_NEWIPC ||| CLONE_NEWNS) true,
       Ev.execvp (some "-m".toList) ["-m".toList, "sh".toList] true,
       Ev.terminated (WStatus.exited 0)] := by
  refine ⟨by decide, by decide, by decide⟩

end UnshareDemo
